import Mathlib

/-! Checkers server: the game engine of `server/server.go`.

A shallow embedding of the game state of the checkers HTTP service and of the
functions that read and write it (`newGame`, `checkWinner`, `captureMove`,
`checkPromotion` and the `POST /game/move` handler), followed by the
properties of the specification proved about them.

Modelling choices.

* The process-wide variable `game` is passed explicitly: every function that
  reads it takes a `GameState`, every function that writes it returns one.
* Position labels are indexed bytewise by the program (`source[0]`,
  `source[1]`), so they are byte sequences, `GoString`. Colours, the turn, the
  status, the winner and the error texts are only copied and compared, and are
  kept as `String`.
* A Go map is an association list without duplicate keys (`AList`); reading a
  key that is absent gives the zero value and `ok = false`, as in Go.
* Indexing a string out of range is a run-time panic in Go; the functions that
  index return `Option`, and the handler reports `MoveOutcome.fault`.
-/

namespace Checkers

/-! ## Strings and the `strconv` functions used by the program -/

/-- A Go string, as the sequence of its bytes (each below 256). -/
abbrev GoString := List Nat

/-- The bytes of a string literal of the source (all of them are ASCII). -/
def lit (s : String) : GoString := s.toList.map Char.toNat

/-- Go `string(b)` for a byte `b`: the UTF-8 encoding of the code point `b`,
one byte below 128 and two bytes from 128 on. -/
def byteToString (b : Nat) : GoString :=
  if b < 128 then [b] else [192 + b / 64, 128 + b % 64]

/-- The digit loop of `strconv.Atoi`: subtract the byte of the digit zero and fail above 9,
`n = n*10 + int(ch)`. `none` is the syntax error. -/
def atoiLoop : GoString → Int → Option Int
  | [], n => some n
  | ch :: s, n =>
    if 48 ≤ ch ∧ ch ≤ 57 then atoiLoop s (n * 10 + ((ch - 48 : Nat) : Int)) else none

/-- Go `strconv.Atoi` on a short string (the program only passes strings of
one or two bytes, far from the range limit): an optional sign followed by at
least one decimal digit. `none` is the syntax error. -/
def Atoi (s0 : GoString) : Option Int :=
  match s0 with
  | [] => none
  | c :: rest =>
    let s := if c = 45 ∨ c = 43 then rest else s0
    if s.length < 1 then none
    else
      match atoiLoop s 0 with
      | none => none
      | some n => some (if c = 45 then -n else n)

/-- The statement `row, _ := strconv.Atoi(string(b))`: the error is dropped and
the value returned with an error is 0. -/
def atoiByte (b : Nat) : Int := (Atoi (byteToString b)).getD 0

/-- Go `strconv.Itoa`: the decimal digits, after a minus sign for a negative
number. -/
def Itoa (n : Int) : GoString :=
  match n with
  | Int.ofNat k => (Nat.toDigits 10 k).map Char.toNat
  | Int.negSucc k => 45 :: (Nat.toDigits 10 (k + 1)).map Char.toNat

/-! ## Data model -/

/-- The struct `PieceState`. -/
structure PieceState where
  IsOccupied : Bool
  IsKing : Bool
  Color : String
deriving DecidableEq, Repr

/-- The zero value of `PieceState`, returned by a map read of an absent key. -/
def PieceState.zero : PieceState := ⟨false, false, ""⟩

/-- The type `Board`, `map[string]PieceState`. -/
abbrev Board := AList (fun _ : GoString => PieceState)

/-- The map read `v, ok := board[key]`. -/
def Board.index (board : Board) (key : GoString) : PieceState × Bool :=
  match board.lookup key with
  | some v => (v, true)
  | none => (PieceState.zero, false)

/-- The map write `board[key] = v`. -/
def Board.assign (board : Board) (key : GoString) (v : PieceState) : Board :=
  board.insert key v

/-- The struct `GameState`. -/
structure GameState where
  Board : Board
  Turn : String
  Status : String
  Winner : String
deriving DecidableEq

/-! ## The functions of the game engine -/

/-- The closure `addPiece` of `newGame`. -/
def addPiece (board : Board) (position : GoString) (color : String) : Board :=
  board.assign position ⟨true, false, color⟩

/-- The squares of the first loop of `newGame`. -/
def redStart : List GoString :=
  ["A1", "A3", "A5", "A7", "B2", "B4", "B6", "B8", "C1", "C3", "C5", "C7"].map lit

/-- The squares of the second loop of `newGame`. -/
def blackStart : List GoString :=
  ["F2", "F4", "F6", "F8", "G1", "G3", "G5", "G7", "H2", "H4", "H6", "H8"].map lit

/-- The function `newGame`: the value it stores in `game`. It reads nothing. -/
def newGame : GameState :=
  let board : Board := ∅
  let board := redStart.foldl (fun board pos => addPiece board pos "red") board
  let board := blackStart.foldl (fun board pos => addPiece board pos "black") board
  { Board := board, Turn := "red", Status := "ongoing", Winner := "" }

/-- One iteration of the loop of `checkWinner` on the counters
`(redPieces, blackPieces)`. -/
def countStep (counts : Nat × Nat) (piece : PieceState) : Nat × Nat :=
  if !piece.IsOccupied then counts
  else if piece.Color = "red" then (counts.1 + 1, counts.2)
  else if piece.Color = "black" then (counts.1, counts.2 + 1)
  else counts

/-- The counters `(redPieces, blackPieces)` of `checkWinner` after its loop. -/
def countPieces (board : Board) : Nat × Nat :=
  board.entries.foldl (fun counts e => countStep counts e.2) (0, 0)

/-- The function `checkWinner`. -/
def checkWinner (game : GameState) : GameState :=
  let counts := countPieces game.Board
  if counts.1 = 0 then { game with Status := "won", Winner := "black" }
  else if counts.2 = 0 then { game with Status := "won", Winner := "red" }
  else { game with Status := "ongoing", Winner := "" }

/-- The label `midPos` built by `captureMove` from the two column bytes and
the two second bytes of the labels. -/
def midPosOf (sourceCol source1 destCol dest1 : Nat) : GoString :=
  let sourceRow := atoiByte source1
  let destRow := atoiByte dest1
  let midCol := ((sourceCol + destCol) / 2) % 256
  let midRow := (sourceRow + destRow).tdiv 2
  [midCol] ++ Itoa midRow

/-- The function `captureMove`; `none` is the index-out-of-range panic of
`source[0]`, `source[1]`, `destination[0]` or `destination[1]`. -/
def captureMove (game : GameState) (source destination : GoString) :
    Option (Bool × GoString) :=
  match source[0]?, source[1]?, destination[0]?, destination[1]? with
  | some sourceCol, some source1, some destCol, some dest1 =>
    let midPos := midPosOf sourceCol source1 destCol dest1
    let (midPiece, ok) := game.Board.index midPos
    if ok && midPiece.IsOccupied && midPiece.Color != game.Turn then
      some (true, midPos)
    else
      some (false, [])
  | _, _, _, _ => none

/-- The function `checkPromotion`; `none` is the index-out-of-range panic of
`destination[1]`. -/
def checkPromotion (destination : GoString) (color : String) : Option Bool :=
  match destination[1]? with
  | some dest1 =>
    let destRow := atoiByte dest1
    if (color == "red" && destRow == 8) || (color == "black" && destRow == 1) then
      some true
    else
      some false
  | none => none

/-- The JSON body of a successful `POST /game/move`. -/
structure MoveBody where
  board : Board
  turn : String
  captured : Bool
  captured_pos : GoString
  promoted : Bool
  status : String
  winner : String
deriving DecidableEq

/-- What a `POST /game/move` request with a decoded body ends in: a 400
response with an error text, a run-time panic, or the success body. -/
inductive MoveOutcome where
  | rejected (msg : String)
  | fault
  | accepted (body : MoveBody)
deriving DecidableEq

/-- The handler of `POST /game/move`, from the decoded body on: the outcome
and the value of `game` it leaves. -/
def postMove (game : GameState) (Source Destination : GoString) :
    MoveOutcome × GameState :=
  let (source, sourceOk) := game.Board.index Source
  if !sourceOk || !source.IsOccupied || source.Color != game.Turn then
    (MoveOutcome.rejected "Invalid source or not your turn", game)
  else
    let (dest, destOk) := game.Board.index Destination
    if destOk && dest.IsOccupied then
      (MoveOutcome.rejected "Destination already occupied", game)
    else
      match captureMove game Source Destination with
      | none => (MoveOutcome.fault, game)
      | some (isCapture, capturedPos) =>
        let board :=
          if isCapture then
            let capturedPiece := (game.Board.index capturedPos).1
            game.Board.assign capturedPos { capturedPiece with IsOccupied := false }
          else game.Board
        match checkPromotion Destination source.Color with
        | none => (MoveOutcome.fault, { game with Board := board })
        | some isPromotion =>
          let source := if isPromotion then { source with IsKing := true } else source
          let source := { source with IsOccupied := false }
          let board := board.assign Source source
          let dest : PieceState :=
            { IsOccupied := true, IsKing := source.IsKing, Color := source.Color }
          let board := board.assign Destination dest
          let turn := if game.Turn = "red" then "black" else "red"
          let game := checkWinner { game with Board := board, Turn := turn }
          (MoveOutcome.accepted
            { board := game.Board, turn := game.Turn, captured := isCapture,
              captured_pos := capturedPos, promoted := isPromotion,
              status := game.Status, winner := game.Winner }, game)

/-! ## Requests and runs -/

/-- The requests that reach the game engine. -/
inductive Request where
  | getGame
  | postNew
  | postMove (source destination : GoString)
  | getCheckWinner
deriving DecidableEq

/-- The value of `game` after a request has been handled. -/
def handle (game : GameState) : Request → GameState
  | Request.getGame => game
  | Request.postNew => newGame
  | Request.postMove source destination => (postMove game source destination).2
  | Request.getCheckWinner => checkWinner game

/-- Whether a request is a move that the handler accepts in this state. -/
def isAccepted (game : GameState) : Request → Bool
  | Request.postMove source destination =>
    match (postMove game source destination).1 with
    | MoveOutcome.accepted _ => true
    | _ => false
  | _ => false

/-- The state after a sequence of requests, first to last. -/
def run (game : GameState) : List Request → GameState
  | [] => game
  | r :: rs => run (handle game r) rs

/-- The number of accepted moves in a sequence of requests handled from a
state. -/
def acceptedCount (game : GameState) : List Request → Nat
  | [] => 0
  | r :: rs => (if isAccepted game r then 1 else 0) + acceptedCount (handle game r) rs

/-- The number of occupied squares of a board. -/
def occupiedCount (board : Board) : Nat :=
  board.entries.countP (fun e => e.2.IsOccupied)

/-! ## Sample states -/

/-- A board with a red piece on A3 and a black piece on B4, red to move. -/
def jumpGame : GameState :=
  { Board := ((∅ : Board).assign (lit "A3") ⟨true, false, "red"⟩).assign (lit "B4")
      ⟨true, false, "black"⟩,
    Turn := "red", Status := "ongoing", Winner := "" }

/-- The body answered to the move A3→C5 in `jumpGame`. -/
def jumpBody : MoveBody :=
  { board := (postMove jumpGame (lit "A3") (lit "C5")).2.Board, turn := "black",
    captured := true, captured_pos := lit "B4", promoted := false, status := "won",
    winner := "red" }

/-- A red piece on G7 with the turn, one step from the far row. -/
def crownGame : GameState :=
  { Board := ((∅ : Board).assign (lit "G7") ⟨true, false, "red"⟩).assign (lit "A1")
      ⟨true, true, "black"⟩,
    Turn := "red", Status := "ongoing", Winner := "" }

/-- The body answered to the move G7→H8 in `crownGame`. -/
def crownBody : MoveBody :=
  { board := (postMove crownGame (lit "G7") (lit "H8")).2.Board, turn := "black",
    captured := false, captured_pos := [], promoted := true, status := "ongoing",
    winner := "" }

/-- A red king on C3 with the turn, and a black piece on H8. -/
def kingGame : GameState :=
  { Board := ((∅ : Board).assign (lit "C3") ⟨true, true, "red"⟩).assign (lit "H8")
      ⟨true, false, "black"⟩,
    Turn := "red", Status := "ongoing", Winner := "" }

/-- The body answered to the move C3→D4 in `kingGame`. -/
def kingBody : MoveBody :=
  { board := (postMove kingGame (lit "C3") (lit "D4")).2.Board, turn := "black",
    captured := false, captured_pos := [], promoted := false, status := "ongoing",
    winner := "" }

/-- The move requests of a list of (source, destination) pairs. -/
def moveRequests (ms : List (GoString × GoString)) : List Request :=
  ms.map (fun m => Request.postMove m.1 m.2)

/-- The number of occupied squares of a board whose piece has the given
colour. -/
def colorCount (board : Board) (color : String) : Nat :=
  board.entries.countP (fun e => e.2.IsOccupied && e.2.Color == color)

/-- The colour that is not to move, for the two colours of the game. -/
def otherColor (color : String) : String :=
  if color = "red" then "black" else "red"

/-- A well-formed position label: one byte A–H followed by one digit 1–8. -/
def wellFormed : GoString → Bool
  | [c, d] => decide (65 ≤ c ∧ c ≤ 72 ∧ 49 ≤ d ∧ d ≤ 56)
  | _ => false

/-- The 64 well-formed labels, A1 to H8. -/
def allLabels : List GoString :=
  (List.range 8).flatMap (fun i => (List.range 8).map (fun j => [65 + i, 49 + j]))

/-- A red piece on A4 with the turn and a black piece on A3. -/
def adjacentGame : GameState :=
  { Board := ((∅ : Board).assign (lit "A4") ⟨true, false, "red"⟩).assign (lit "A3")
      ⟨true, false, "black"⟩,
    Turn := "red", Status := "ongoing", Winner := "" }

/-- The fresh game with B4 cleared. -/
def clearedGame : GameState :=
  { newGame with Board := newGame.Board.assign (lit "B4") ⟨false, false, "red"⟩ }

/-- A game played from the fresh state in which red captures the twelve black
pieces: one opening move by red, then twelve captures by red, each after a
move by black that captures nothing. -/
def winMoves : List (GoString × GoString) :=
  [("C7", "C8"), ("G3", "A6"), ("A5", "B7"), ("G5", "E1"), ("C1", "H1"), ("F2", "D5"),
    ("H1", "F2"), ("F6", "H3"), ("C8", "E2"), ("H4", "E6"), ("E2", "H7"), ("H8", "E5"),
    ("B8", "H5"), ("H3", "A6"), ("B7", "H4"), ("H6", "B7"), ("A7", "C8"), ("G7", "G1"),
    ("F2", "H1"), ("A6", "B3"), ("B2", "B5"), ("H2", "D8"), ("C8", "E8"), ("F8", "C2"),
    ("C3", "C1")].map (fun m => (lit m.1, lit m.2))

/-- The body answered to the move A4→B3 in `adjacentGame`. -/
def adjacentBody : MoveBody :=
  { board := (postMove adjacentGame (lit "A4") (lit "B3")).2.Board, turn := "black",
    captured := true, captured_pos := lit "A3", promoted := false, status := "won",
    winner := "red" }

/-- The state after the first two moves of `winMoves`: red C7→C8, black
G3→A6. Red is to move and A6, between A5 and B7, holds a black piece. -/
def thirdGame : GameState := run newGame (moveRequests (winMoves.take 2))

/-- The body answered to the move A5→B7 in `thirdGame`. -/
def thirdBody : MoveBody :=
  { board := (postMove thirdGame (lit "A5") (lit "B7")).2.Board, turn := "black",
    captured := true, captured_pos := lit "A6", promoted := false, status := "ongoing",
    winner := "" }

/-- The invariant of the states reached from the fresh game: the turn is one
of the two colours, every piece of the board has one of the two colours, the
colour that is not to move has an occupied piece, status and winner are those
`checkWinner` computes, every key has at least two bytes, and no colour has
more than twelve occupied pieces. -/
structure Sound (game : GameState) : Prop where
  turn : game.Turn = "red" ∨ game.Turn = "black"
  colors : ∀ k p, game.Board.lookup k = some p → p.Color = "red" ∨ p.Color = "black"
  mover : 0 < colorCount game.Board (otherColor game.Turn)
  settled : checkWinner game = game
  keyLength : ∀ k, k ∈ game.Board.keys → 2 ≤ k.length
  bound : colorCount game.Board "red" ≤ 12 ∧ colorCount game.Board "black" ≤ 12

/-- The board an accepted move leaves, from the piece read at the source and
the values returned by `captureMove` and `checkPromotion`: the three map
writes of the handler in their order. -/
def movedBoard (board : Board) (Source Destination : GoString) (source : PieceState)
    (isCapture : Bool) (capturedPos : GoString) (isPromotion : Bool) : Board :=
  let board :=
    if isCapture then
      board.assign capturedPos { (board.index capturedPos).1 with IsOccupied := false }
    else board
  let board := board.assign Source
    { IsOccupied := false, IsKing := source.IsKing || isPromotion, Color := source.Color }
  board.assign Destination
    { IsOccupied := true, IsKing := source.IsKing || isPromotion, Color := source.Color }

/-! ## Lemmas on `strconv` -/

theorem atoiByte_digit (b : Nat) (h1 : 48 ≤ b) (h2 : b ≤ 57) :
    atoiByte b = ((b - 48 : Nat) : Int) := by
  have h3 : b < 128 := by omega
  have h4 : ¬ (b = 45 ∨ b = 43) := by omega
  simp [atoiByte, byteToString, Atoi, atoiLoop, h1, h2, h3, h4]
  omega

theorem atoiByte_not_digit (b : Nat) (h : ¬ (48 ≤ b ∧ b ≤ 57)) : atoiByte b = 0 := by
  unfold atoiByte byteToString
  by_cases h3 : b < 128
  · by_cases h4 : b = 45 ∨ b = 43
    · rcases h4 with h4 | h4 <;> subst h4 <;> rfl
    · simp [Atoi, atoiLoop, h3, h4, h]
  · have h5 : ¬ (192 + b / 64 = 45 ∨ 192 + b / 64 = 43) := by omega
    have h6 : ¬ (48 ≤ 192 + b / 64 ∧ 192 + b / 64 ≤ 57) := by omega
    simp [Atoi, atoiLoop, h3, h5, h6]

theorem atoiByte_eq (b : Nat) :
    atoiByte b = if 48 ≤ b ∧ b ≤ 57 then ((b - 48 : Nat) : Int) else 0 := by
  split_ifs with h
  · exact atoiByte_digit b h.1 h.2
  · exact atoiByte_not_digit b h

theorem Itoa_digit (k : Nat) (h : k ≤ 9) : Itoa (k : Int) = [48 + k] := by
  interval_cases k <;> rfl

/-- On two digit bytes the midpoint label is the mean column byte followed by
the digit of the mean row. -/
theorem midPosOf_digits (c1 c2 r1 r2 : Nat) (h1 : r1 ≤ 9) (h2 : r2 ≤ 9) :
    midPosOf c1 (48 + r1) c2 (48 + r2) = [(c1 + c2) / 2 % 256, 48 + (r1 + r2) / 2] := by
  unfold midPosOf
  rw [atoiByte_digit _ (by omega) (by omega), atoiByte_digit _ (by omega) (by omega)]
  have e : ((((48 + r1 - 48 : Nat) : Int) + ((48 + r2 - 48 : Nat) : Int)).tdiv 2)
      = (((r1 + r2) / 2 : Nat) : Int) := by
    rw [Int.tdiv_eq_ediv (by omega) (by omega)]
    omega
  simp only [e]
  rw [Itoa_digit _ (by omega)]
  rfl

/-! ## Lemmas on the map operations -/

theorem index_fst_of_lookup {board : Board} {key : GoString} {v : PieceState}
    (h : board.lookup key = some v) : board.index key = (v, true) := by
  simp [Board.index, h]

theorem index_of_lookup_none {board : Board} {key : GoString}
    (h : board.lookup key = none) : board.index key = (PieceState.zero, false) := by
  simp [Board.index, h]

theorem lookup_assign_self (board : Board) (key : GoString) (v : PieceState) :
    (board.assign key v).lookup key = some v := by
  simp [Board.assign]

theorem lookup_assign_ne (board : Board) {key other : GoString} (v : PieceState)
    (h : other ≠ key) : (board.assign key v).lookup other = board.lookup other := by
  simp [Board.assign, AList.lookup_insert_ne h]

/-! ## The branches of the move handler -/

theorem postMove_source_absent {game : GameState} {S : GoString} (D : GoString)
    (hS : game.Board.lookup S = none) :
    postMove game S D = (MoveOutcome.rejected "Invalid source or not your turn", game) := by
  simp [postMove, Board.index, hS]

theorem postMove_source_bad {game : GameState} {S : GoString} (D : GoString)
    {source : PieceState} (hS : game.Board.lookup S = some source)
    (hbad : source.IsOccupied = false ∨ source.Color ≠ game.Turn) :
    postMove game S D = (MoveOutcome.rejected "Invalid source or not your turn", game) := by
  simp only [postMove, Board.index, hS]
  rw [if_pos]
  rcases hbad with hb | hb <;> simp [hb]

theorem postMove_dest_occupied {game : GameState} {S D : GoString}
    {source dest : PieceState} (hS : game.Board.lookup S = some source)
    (hocc : source.IsOccupied = true) (hcol : source.Color = game.Turn)
    (hD : game.Board.lookup D = some dest) (hdocc : dest.IsOccupied = true) :
    postMove game S D = (MoveOutcome.rejected "Destination already occupied", game) := by
  simp [postMove, Board.index, hS, hocc, hcol, hD, hdocc]

theorem postMove_past_checks {game : GameState} {S D : GoString}
    {source : PieceState} (hS : game.Board.lookup S = some source)
    (hocc : source.IsOccupied = true) (hcol : source.Color = game.Turn)
    (hD : ∀ d, game.Board.lookup D = some d → d.IsOccupied = false) :
    postMove game S D =
      match captureMove game S D with
      | none => (MoveOutcome.fault, game)
      | some (isCapture, capturedPos) =>
        match checkPromotion D source.Color with
        | none =>
          (MoveOutcome.fault,
            { game with
              Board :=
                if isCapture then
                  game.Board.assign capturedPos
                    { (game.Board.index capturedPos).1 with IsOccupied := false }
                else game.Board })
        | some isPromotion =>
          let game1 := checkWinner
            { game with
              Board := movedBoard game.Board S D source isCapture capturedPos isPromotion,
              Turn := if game.Turn = "red" then "black" else "red" }
          (MoveOutcome.accepted
            { board := game1.Board, turn := game1.Turn, captured := isCapture,
              captured_pos := capturedPos, promoted := isPromotion,
              status := game1.Status, winner := game1.Winner }, game1) := by
  have hD2 : ¬ ((game.Board.index D).2 = true ∧ (game.Board.index D).1.IsOccupied = true) := by
    unfold Board.index
    cases hl : game.Board.lookup D with
    | none => simp
    | some d => simp [hD d hl]
  simp only [postMove, index_fst_of_lookup hS, hocc, hcol]
  simp only [Bool.and_eq_true, hD2]
  simp
  cases captureMove game S D with
  | none => rfl
  | some r =>
    obtain ⟨isCapture, capturedPos⟩ := r
    simp only
    cases checkPromotion D game.Turn with
    | none => rfl
    | some isPromotion =>
      cases isPromotion <;> simp [movedBoard, hcol]

/-- An accepted move passed both checks, `captureMove` and `checkPromotion`
returned, and the state and body are those written by the handler. -/
theorem postMove_accepted_inv {game : GameState} {S D : GoString} {body : MoveBody}
    (h : (postMove game S D).1 = MoveOutcome.accepted body) :
    ∃ source isCapture capturedPos isPromotion,
      game.Board.lookup S = some source ∧ source.IsOccupied = true ∧
      source.Color = game.Turn ∧
      (∀ d, game.Board.lookup D = some d → d.IsOccupied = false) ∧
      captureMove game S D = some (isCapture, capturedPos) ∧
      checkPromotion D source.Color = some isPromotion ∧
      (postMove game S D).2 = checkWinner
        { game with
          Board := movedBoard game.Board S D source isCapture capturedPos isPromotion,
          Turn := if game.Turn = "red" then "black" else "red" } ∧
      body.captured = isCapture ∧ body.captured_pos = capturedPos ∧
      body.promoted = isPromotion ∧ body.board = (postMove game S D).2.Board ∧
      body.turn = (postMove game S D).2.Turn ∧
      body.status = (postMove game S D).2.Status ∧
      body.winner = (postMove game S D).2.Winner := by
  cases hS : game.Board.lookup S with
  | none => simp [postMove_source_absent D hS] at h
  | some source =>
    by_cases hbad : source.IsOccupied = false ∨ source.Color ≠ game.Turn
    · simp [postMove_source_bad D hS hbad] at h
    · have hocc : source.IsOccupied = true := by
        cases ho : source.IsOccupied with
        | true => rfl
        | false => exact absurd (Or.inl ho) hbad
      have hcol : source.Color = game.Turn := by
        by_contra hne
        exact hbad (Or.inr hne)
      by_cases hD : ∀ d, game.Board.lookup D = some d → d.IsOccupied = false
      · have hpm := postMove_past_checks hS hocc hcol hD
        cases hc : captureMove game S D with
        | none => rw [hpm, hc] at h; simp at h
        | some r =>
          obtain ⟨isCapture, capturedPos⟩ := r
          cases hp : checkPromotion D source.Color with
          | none => rw [hpm, hc] at h; simp only [hp] at h; simp at h
          | some isPromotion =>
            rw [hc] at hpm
            simp only [hp] at hpm
            rw [hpm] at h ⊢
            simp only [MoveOutcome.accepted.injEq] at h
            subst h
            exact ⟨source, isCapture, capturedPos, isPromotion, rfl, hocc, hcol, hD, rfl,
              hp, rfl, rfl, rfl, rfl, rfl, rfl, rfl, rfl⟩
      · push_neg at hD
        obtain ⟨d, hd, hdo⟩ := hD
        have hdocc : d.IsOccupied = true := by
          cases ho : d.IsOccupied with
          | true => rfl
          | false => exact absurd ho hdo
        simp [postMove_dest_occupied hS hocc hcol hd hdocc] at h

/-! ## Lemmas on `captureMove` and `checkPromotion` -/

theorem captureMove_cons (game : GameState) (c1 s1 c2 d1 : Nat) (rs rd : GoString) :
    captureMove game (c1 :: s1 :: rs) (c2 :: d1 :: rd) =
      match game.Board.lookup (midPosOf c1 s1 c2 d1) with
      | some midPiece =>
        if midPiece.IsOccupied = true ∧ midPiece.Color ≠ game.Turn then
          some (true, midPosOf c1 s1 c2 d1)
        else some (false, [])
      | none => some (false, []) := by
  unfold captureMove Board.index
  cases hl : game.Board.lookup (midPosOf c1 s1 c2 d1) with
  | none => simp [hl]
  | some p => simp [hl, and_assoc]

theorem captureMove_some_inv {game : GameState} {S D : GoString} {r : Bool × GoString}
    (h : captureMove game S D = some r) :
    ∃ c1 s1 rs c2 d1 rd, S = c1 :: s1 :: rs ∧ D = c2 :: d1 :: rd := by
  match S, D with
  | c1 :: s1 :: rs, c2 :: d1 :: rd => exact ⟨c1, s1, rs, c2, d1, rd, rfl, rfl⟩
  | [], _ => simp [captureMove] at h
  | [_], _ => simp [captureMove] at h
  | _ :: _ :: _, [] => simp [captureMove] at h
  | _ :: _ :: _, [_] => simp [captureMove] at h

theorem checkPromotion_cons (c d1 : Nat) (rd : GoString) (color : String) :
    checkPromotion (c :: d1 :: rd) color =
      some (decide ((color = "red" ∧ atoiByte d1 = 8) ∨ (color = "black" ∧ atoiByte d1 = 1))) := by
  unfold checkPromotion
  by_cases h : (color = "red" ∧ atoiByte d1 = 8) ∨ (color = "black" ∧ atoiByte d1 = 1)
  · simp [h]
  · simp [h]

theorem captureMove_true_inv {game : GameState} {S D p : GoString}
    (h : captureMove game S D = some (true, p)) :
    ∃ piece, game.Board.lookup p = some piece ∧ piece.IsOccupied = true ∧
      piece.Color ≠ game.Turn ∧
      ∃ c1 s1 rs c2 d1 rd, S = c1 :: s1 :: rs ∧ D = c2 :: d1 :: rd ∧
        p = midPosOf c1 s1 c2 d1 := by
  obtain ⟨c1, s1, rs, c2, d1, rd, rfl, rfl⟩ := captureMove_some_inv h
  rw [captureMove_cons] at h
  cases hl : game.Board.lookup (midPosOf c1 s1 c2 d1) with
  | none => simp [hl] at h
  | some piece =>
    simp only [hl] at h
    by_cases hc : piece.IsOccupied = true ∧ piece.Color ≠ game.Turn
    · rw [if_pos hc] at h
      simp only [Option.some.injEq, Prod.mk.injEq, true_and] at h
      subst h
      exact ⟨piece, hl, hc.1, hc.2, c1, s1, rs, c2, d1, rd, rfl, rfl, rfl⟩
    · rw [if_neg hc] at h
      simp at h

theorem captureMove_false_inv {game : GameState} {S D p : GoString}
    (h : captureMove game S D = some (false, p)) :
    p = [] ∧
      ∃ c1 s1 rs c2 d1 rd, S = c1 :: s1 :: rs ∧ D = c2 :: d1 :: rd ∧
        ¬ ∃ piece, game.Board.lookup (midPosOf c1 s1 c2 d1) = some piece ∧
          piece.IsOccupied = true ∧ piece.Color ≠ game.Turn := by
  obtain ⟨c1, s1, rs, c2, d1, rd, rfl, rfl⟩ := captureMove_some_inv h
  rw [captureMove_cons] at h
  cases hl : game.Board.lookup (midPosOf c1 s1 c2 d1) with
  | none =>
    simp only [hl, Option.some.injEq, Prod.mk.injEq, true_and] at h
    exact ⟨h.symm, c1, s1, rs, c2, d1, rd, rfl, rfl, by simp [hl]⟩
  | some piece =>
    simp only [hl] at h
    by_cases hc : piece.IsOccupied = true ∧ piece.Color ≠ game.Turn
    · rw [if_pos hc] at h
      simp at h
    · rw [if_neg hc] at h
      simp only [Option.some.injEq, Prod.mk.injEq, true_and] at h
      refine ⟨h.symm, c1, s1, rs, c2, d1, rd, rfl, rfl, ?_⟩
      rintro ⟨q, hq, hq1, hq2⟩
      rw [hl] at hq
      cases hq
      exact hc ⟨hq1, hq2⟩

/-! ## Lemmas on `checkWinner` -/

theorem checkWinner_Board (game : GameState) : (checkWinner game).Board = game.Board := by
  unfold checkWinner
  simp only
  split_ifs <;> rfl

theorem checkWinner_Turn (game : GameState) : (checkWinner game).Turn = game.Turn := by
  unfold checkWinner
  simp only
  split_ifs <;> rfl

/-! ## The facts of an accepted move -/

/-- What holds of every accepted move: the source piece passed the check, the
destination was free, the two labels differ, a captured square differs from
both and held an occupied piece of another colour, and the board and turn
left are those written by the handler. -/
theorem accepted_facts {game : GameState} {S D : GoString} {body : MoveBody}
    (h : (postMove game S D).1 = MoveOutcome.accepted body) :
    ∃ source, game.Board.lookup S = some source ∧ source.IsOccupied = true ∧
      source.Color = game.Turn ∧
      (∀ d, game.Board.lookup D = some d → d.IsOccupied = false) ∧
      S ≠ D ∧
      captureMove game S D = some (body.captured, body.captured_pos) ∧
      checkPromotion D source.Color = some body.promoted ∧
      (postMove game S D).2.Board =
        movedBoard game.Board S D source body.captured body.captured_pos body.promoted ∧
      (postMove game S D).2.Turn = (if game.Turn = "red" then "black" else "red") ∧
      (body.captured = true → body.captured_pos ≠ S ∧ body.captured_pos ≠ D ∧
        ∃ piece, game.Board.lookup body.captured_pos = some piece ∧
          piece.IsOccupied = true ∧ piece.Color ≠ game.Turn) := by
  obtain ⟨source, isCapture, capturedPos, isPromotion, hS, hocc, hcol, hD, hc, hp, hst,
    rfl, rfl, rfl, -⟩ := postMove_accepted_inv h
  refine ⟨source, hS, hocc, hcol, hD, ?_, hc, hp, ?_, ?_, ?_⟩
  · rintro rfl
    have := hD source hS
    rw [hocc] at this
    cases this
  · rw [hst, checkWinner_Board]
  · rw [hst, checkWinner_Turn]
  · intro hcap
    rw [hcap] at hc
    obtain ⟨piece, hl, ho, hcl, -⟩ := captureMove_true_inv hc
    refine ⟨?_, ?_, piece, hl, ho, hcl⟩
    · intro e
      rw [e, hS] at hl
      cases hl
      exact hcl hcol
    · intro e
      rw [e] at hl
      have := hD piece hl
      rw [ho] at this
      cases this

/-- A move that passes both checks with labels of at least two bytes is
accepted. -/
theorem postMove_accepts {game : GameState} {c1 s1 c2 d1 : Nat} {rs rd : GoString}
    {source : PieceState} (hS : game.Board.lookup (c1 :: s1 :: rs) = some source)
    (hocc : source.IsOccupied = true) (hcol : source.Color = game.Turn)
    (hD : ∀ d, game.Board.lookup (c2 :: d1 :: rd) = some d → d.IsOccupied = false) :
    ∃ body, (postMove game (c1 :: s1 :: rs) (c2 :: d1 :: rd)).1 =
      MoveOutcome.accepted body := by
  rw [postMove_past_checks hS hocc hcol hD, captureMove_cons, checkPromotion_cons]
  cases game.Board.lookup (midPosOf c1 s1 c2 d1) with
  | none => exact ⟨_, rfl⟩
  | some piece =>
    simp only
    by_cases hq : piece.IsOccupied = true ∧ piece.Color ≠ game.Turn
    · rw [if_pos hq]
      exact ⟨_, rfl⟩
    · rw [if_neg hq]
      exact ⟨_, rfl⟩

/-- Every move request ends in a rejection or a fault that leave the state as
it was, or is accepted. -/
theorem postMove_cases (game : GameState) (S D : GoString) :
    (∃ msg, postMove game S D = (MoveOutcome.rejected msg, game)) ∨
    postMove game S D = (MoveOutcome.fault, game) ∨
    ∃ body, (postMove game S D).1 = MoveOutcome.accepted body := by
  cases hS : game.Board.lookup S with
  | none => exact Or.inl ⟨_, postMove_source_absent D hS⟩
  | some source =>
    by_cases hbad : source.IsOccupied = false ∨ source.Color ≠ game.Turn
    · exact Or.inl ⟨_, postMove_source_bad D hS hbad⟩
    · have hocc : source.IsOccupied = true := by
        cases ho : source.IsOccupied with
        | true => rfl
        | false => exact absurd (Or.inl ho) hbad
      have hcol : source.Color = game.Turn := by
        by_contra hne
        exact hbad (Or.inr hne)
      by_cases hD : ∀ d, game.Board.lookup D = some d → d.IsOccupied = false
      · cases hc : captureMove game S D with
        | none =>
          right; left
          rw [postMove_past_checks hS hocc hcol hD, hc]
        | some r =>
          right; right
          obtain ⟨c1, s1, rs, c2, d1, rd, rfl, rfl⟩ := captureMove_some_inv hc
          exact postMove_accepts hS hocc hcol hD
      · push_neg at hD
        obtain ⟨d, hd, hdo⟩ := hD
        have hdocc : d.IsOccupied = true := by
          cases ho : d.IsOccupied with
          | true => rfl
          | false => exact absurd ho hdo
        exact Or.inl ⟨_, postMove_dest_occupied hS hocc hcol hd hdocc⟩

/-- A move that is not accepted leaves the state as it was. -/
theorem postMove_not_accepted {game : GameState} {S D : GoString}
    (h : ∀ body, (postMove game S D).1 ≠ MoveOutcome.accepted body) :
    (postMove game S D).2 = game := by
  rcases postMove_cases game S D with ⟨msg, hm⟩ | hf | ⟨body, hb⟩
  · rw [hm]
  · rw [hf]
  · exact absurd hb (h body)

/-! ## Lookups in the board of an accepted move -/

theorem lookup_movedBoard_dest (board : Board) (S D : GoString) (source : PieceState)
    (isCapture : Bool) (capturedPos : GoString) (isPromotion : Bool) :
    (movedBoard board S D source isCapture capturedPos isPromotion).lookup D =
      some ⟨true, source.IsKing || isPromotion, source.Color⟩ := by
  simp [movedBoard, lookup_assign_self]

theorem lookup_movedBoard_source (board : Board) {S D : GoString} (source : PieceState)
    (isCapture : Bool) (capturedPos : GoString) (isPromotion : Bool) (hne : S ≠ D) :
    (movedBoard board S D source isCapture capturedPos isPromotion).lookup S =
      some ⟨false, source.IsKing || isPromotion, source.Color⟩ := by
  simp only [movedBoard]
  rw [lookup_assign_ne _ _ hne, lookup_assign_self]

theorem lookup_movedBoard_other (board : Board) {S D k : GoString} (source : PieceState)
    (isCapture : Bool) (capturedPos : GoString) (isPromotion : Bool)
    (hS : k ≠ S) (hD : k ≠ D) (hC : isCapture = true → k ≠ capturedPos) :
    (movedBoard board S D source isCapture capturedPos isPromotion).lookup k =
      board.lookup k := by
  simp only [movedBoard]
  rw [lookup_assign_ne _ _ hD, lookup_assign_ne _ _ hS]
  cases isCapture with
  | false => simp
  | true => simp [lookup_assign_ne _ _ (hC rfl)]

theorem lookup_movedBoard_captured (board : Board) {S D capturedPos : GoString}
    (source piece : PieceState) (isPromotion : Bool)
    (hS : capturedPos ≠ S) (hD : capturedPos ≠ D) (hl : board.lookup capturedPos = some piece) :
    (movedBoard board S D source true capturedPos isPromotion).lookup capturedPos =
      some { piece with IsOccupied := false } := by
  simp only [movedBoard]
  rw [lookup_assign_ne _ _ hD, lookup_assign_ne _ _ hS]
  simp [lookup_assign_self, index_fst_of_lookup hl]

/-! ## Counting occupied squares -/

/-- Erasing a key from an entry list lowers the number of occupied entries by
one exactly when the key was bound to an occupied piece. -/
theorem countP_kerase_occupied (key : GoString)
    (l : List (Sigma (fun _ : GoString => PieceState))) :
    (List.kerase key l).countP (fun e => e.2.IsOccupied) +
        (match List.dlookup key l with
          | some v => if v.IsOccupied = true then 1 else 0
          | none => 0) =
      l.countP (fun e => e.2.IsOccupied) := by
  induction l with
  | nil => simp
  | cons e l ih =>
    obtain ⟨k, v⟩ := e
    by_cases hk : key = k
    · subst hk
      have hke : List.kerase key (⟨key, v⟩ :: l) = l := List.kerase_cons_eq rfl
      simp only [hke, List.dlookup_cons_eq, List.countP_cons]
    · rw [List.kerase_cons_ne hk, List.dlookup_cons_ne _ _ hk, List.countP_cons,
        List.countP_cons]
      omega

/-- A map write changes the number of occupied squares by the occupancy
written minus the occupancy read before at the key. -/
theorem occupiedCount_assign (board : Board) (key : GoString) (v : PieceState) :
    occupiedCount (board.assign key v) +
        (if (board.index key).1.IsOccupied = true then 1 else 0) =
      occupiedCount board + (if v.IsOccupied = true then 1 else 0) := by
  have hk := countP_kerase_occupied key board.entries
  unfold occupiedCount Board.assign Board.index
  rw [AList.insert_entries, List.countP_cons]
  unfold AList.lookup
  cases hl : List.dlookup key board.entries with
  | none =>
    rw [hl] at hk
    simp only [PieceState.zero] at hk ⊢
    simp at hk ⊢
    omega
  | some w =>
    rw [hl] at hk
    simp only at hk ⊢
    omega

/-- The three map writes of an accepted move, counted: the board written
holds as many occupied squares as before, less one when a square occupied
before and different from both labels is captured. -/
theorem occupiedCount_movedBoard (board : Board) {S D : GoString} {source : PieceState}
    (isCapture : Bool) (capturedPos : GoString) (isPromotion : Bool)
    (hS : board.lookup S = some source) (hocc : source.IsOccupied = true)
    (hD : ∀ d, board.lookup D = some d → d.IsOccupied = false) (hne : S ≠ D)
    (hcap : isCapture = true → capturedPos ≠ S ∧ capturedPos ≠ D ∧
      ∃ piece, board.lookup capturedPos = some piece ∧ piece.IsOccupied = true) :
    occupiedCount (movedBoard board S D source isCapture capturedPos isPromotion) +
        (if isCapture = true then 1 else 0) = occupiedCount board := by
  have hfree : ∀ b : Board, b.lookup D = board.lookup D →
      (b.index D).1.IsOccupied = false := by
    intro b hb
    unfold Board.index
    rw [hb]
    cases hl : board.lookup D with
    | none => rfl
    | some d => exact hD d hl
  cases isCapture with
  | false =>
    simp only [movedBoard, Bool.false_eq_true, if_false, add_zero]
    have h2 := occupiedCount_assign board S
      ⟨false, source.IsKing || isPromotion, source.Color⟩
    have h3 := occupiedCount_assign
      (board.assign S ⟨false, source.IsKing || isPromotion, source.Color⟩) D
      ⟨true, source.IsKing || isPromotion, source.Color⟩
    rw [index_fst_of_lookup hS] at h2
    rw [hfree _ (lookup_assign_ne _ _ hne.symm)] at h3
    simp only [hocc, if_true, Bool.false_eq_true, if_false, add_zero] at h2 h3
    omega
  | true =>
    obtain ⟨hpS, hpD, piece, hl, ho⟩ := hcap rfl
    simp only [movedBoard, if_true, index_fst_of_lookup hl]
    have h1 := occupiedCount_assign board capturedPos { piece with IsOccupied := false }
    have h2 := occupiedCount_assign
      (board.assign capturedPos { piece with IsOccupied := false }) S
      ⟨false, source.IsKing || isPromotion, source.Color⟩
    have h3 := occupiedCount_assign
      ((board.assign capturedPos { piece with IsOccupied := false }).assign S
        ⟨false, source.IsKing || isPromotion, source.Color⟩) D
      ⟨true, source.IsKing || isPromotion, source.Color⟩
    have hS1 : (board.assign capturedPos { piece with IsOccupied := false }).lookup S =
        some source := by
      rw [lookup_assign_ne _ _ hpS.symm, hS]
    have hD2 : ((board.assign capturedPos { piece with IsOccupied := false }).assign S
        ⟨false, source.IsKing || isPromotion, source.Color⟩).lookup D = board.lookup D := by
      rw [lookup_assign_ne _ _ hne.symm, lookup_assign_ne _ _ hpD.symm]
    rw [hfree _ hD2] at h3
    rw [index_fst_of_lookup hS1] at h2
    rw [index_fst_of_lookup hl] at h1
    simp only [hocc, ho, if_true, Bool.false_eq_true, if_false, add_zero] at h1 h2 h3
    omega

/-! ## Initialize -/

/-- C1. Whatever the state before, `POST /game/new` (the function `newGame`)
leaves the same state: the twelve listed squares hold an occupied red piece
that is not a king, the twelve other listed squares an occupied black piece
that is not a king, the board has these 24 keys and no other, 24 occupied
squares counted as 12 red and 12 black by the loop of `checkWinner`, the turn
is red, the status ongoing and the winner empty. -/
theorem newGame_initial_state (game : GameState) :
    handle game Request.postNew = newGame ∧
    (∀ pos ∈ ["A1", "A3", "A5", "A7", "B2", "B4", "B6", "B8", "C1", "C3", "C5", "C7"],
      newGame.Board.lookup (lit pos) = some ⟨true, false, "red"⟩) ∧
    (∀ pos ∈ ["F2", "F4", "F6", "F8", "G1", "G3", "G5", "G7", "H2", "H4", "H6", "H8"],
      newGame.Board.lookup (lit pos) = some ⟨true, false, "black"⟩) ∧
    newGame.Board.keys.Perm
      (["A1", "A3", "A5", "A7", "B2", "B4", "B6", "B8", "C1", "C3", "C5", "C7",
        "F2", "F4", "F6", "F8", "G1", "G3", "G5", "G7", "H2", "H4", "H6", "H8"].map lit) ∧
    occupiedCount newGame.Board = 24 ∧
    countPieces newGame.Board = (12, 12) ∧
    newGame.Turn = "red" ∧ newGame.Status = "ongoing" ∧ newGame.Winner = "" := by
  refine ⟨rfl, ?_, ?_, ?_, ?_, ?_, rfl, rfl, rfl⟩
  · decide
  · decide
  · decide
  · decide
  · decide

/-! ## Apply Move: the two rejections -/

/-- C2. When the source is absent from the board, or bound to an unoccupied
piece, or bound to a piece whose colour is not the turn, the move is rejected
with "Invalid source or not your turn", whatever the destination, and the
game state is left as it was. -/
theorem move_rejects_invalid_source (game : GameState) (S D : GoString)
    (h : game.Board.lookup S = none ∨
      ∃ p, game.Board.lookup S = some p ∧ (p.IsOccupied = false ∨ p.Color ≠ game.Turn)) :
    postMove game S D = (MoveOutcome.rejected "Invalid source or not your turn", game) ∧
    handle game (Request.postMove S D) = game := by
  have key : postMove game S D =
      (MoveOutcome.rejected "Invalid source or not your turn", game) := by
    rcases h with h | ⟨p, hp, hbad⟩
    · exact postMove_source_absent D h
    · exact postMove_source_bad D hp hbad
  exact ⟨key, by simp [handle, key]⟩

/-- Witness of C2: a black piece (H2) asked to move while red is to move to an
occupied square of the fresh game. -/
theorem move_rejects_invalid_source_witness :
    (∃ p, newGame.Board.lookup (lit "H2") = some p ∧
      (p.IsOccupied = false ∨ p.Color ≠ newGame.Turn)) ∧
    postMove newGame (lit "H2") (lit "A1") =
      (MoveOutcome.rejected "Invalid source or not your turn", newGame) :=
  ⟨⟨⟨true, false, "black"⟩, by decide, Or.inr (by decide)⟩,
    (move_rejects_invalid_source newGame (lit "H2") (lit "A1")
      (Or.inr ⟨⟨true, false, "black"⟩, by decide, Or.inr (by decide)⟩)).1⟩

/-- C3. When the source holds an occupied piece of the colour to move and the
destination is a key of the board bound to an occupied piece, the move is
rejected with "Destination already occupied" and the game state is left as it
was; when the destination is absent or bound to an unoccupied piece the move
is not rejected, with this text or any other. -/
theorem move_rejects_occupied_destination (game : GameState) (S D : GoString)
    (source : PieceState) (hS : game.Board.lookup S = some source)
    (hocc : source.IsOccupied = true) (hcol : source.Color = game.Turn) :
    (∀ dest, game.Board.lookup D = some dest → dest.IsOccupied = true →
      postMove game S D = (MoveOutcome.rejected "Destination already occupied", game) ∧
      handle game (Request.postMove S D) = game) ∧
    ((game.Board.lookup D = none ∨
        ∃ dest, game.Board.lookup D = some dest ∧ dest.IsOccupied = false) →
      ∀ msg, (postMove game S D).1 ≠ MoveOutcome.rejected msg) := by
  constructor
  · intro dest hD hdocc
    have key := postMove_dest_occupied hS hocc hcol hD hdocc
    exact ⟨key, by simp [handle, key]⟩
  · intro hfree msg
    have hD : ∀ d, game.Board.lookup D = some d → d.IsOccupied = false := by
      intro d hd
      rcases hfree with hn | ⟨dest, hdest, hdo⟩
      · rw [hn] at hd; cases hd
      · rw [hdest] at hd; cases hd; exact hdo
    rw [postMove_past_checks hS hocc hcol hD]
    cases captureMove game S D with
    | none => simp
    | some r =>
      obtain ⟨isCapture, capturedPos⟩ := r
      cases checkPromotion D source.Color with
      | none => simp
      | some isPromotion => simp

/-- Witness of C3: in the fresh game the red piece on A3 is asked to move to
B4, which holds a red piece. -/
theorem move_rejects_occupied_destination_witness :
    newGame.Board.lookup (lit "A3") = some ⟨true, false, "red"⟩ ∧
    postMove newGame (lit "A3") (lit "B4") =
      (MoveOutcome.rejected "Destination already occupied", newGame) :=
  ⟨by decide,
    ((move_rejects_occupied_destination newGame (lit "A3") (lit "B4") ⟨true, false, "red"⟩
      (by decide) rfl rfl).1 ⟨true, false, "red"⟩ (by decide) rfl).1⟩

/-! ## Apply Move: the effect of an accepted move -/

/-- C4. After an accepted move the source square is bound to an unoccupied
piece, the destination square to an occupied piece with the colour of the
source piece and with the king flag equal to (the source piece was a king or
the move promoted), and every square other than the source, the destination
and, when `captured` is true, the captured square, is bound as before. -/
theorem move_effect_frame (game : GameState) (S D : GoString) (body : MoveBody)
    (h : (postMove game S D).1 = MoveOutcome.accepted body) :
    ∃ source, game.Board.lookup S = some source ∧ source.IsOccupied = true ∧
      source.Color = game.Turn ∧
      (∀ d, game.Board.lookup D = some d → d.IsOccupied = false) ∧
      (∃ p, (postMove game S D).2.Board.lookup S = some p ∧ p.IsOccupied = false) ∧
      (postMove game S D).2.Board.lookup D =
        some ⟨true, source.IsKing || body.promoted, source.Color⟩ ∧
      (∀ k, k ≠ S → k ≠ D → ¬ (body.captured = true ∧ k = body.captured_pos) →
        (postMove game S D).2.Board.lookup k = game.Board.lookup k) ∧
      body.board = (postMove game S D).2.Board := by
  obtain ⟨source, hS, hocc, hcol, hD, hne, -, -, hB, -, -⟩ := accepted_facts h
  obtain ⟨_, _, _, _, _, _, _, _, _, _, _, _, _, _, hbb, _⟩ := postMove_accepted_inv h
  refine ⟨source, hS, hocc, hcol, hD, ?_, ?_, ?_, hbb⟩
  · exact ⟨_, by rw [hB, lookup_movedBoard_source _ _ _ _ _ hne], rfl⟩
  · rw [hB, lookup_movedBoard_dest]
  · intro k hkS hkD hkC
    rw [hB]
    exact lookup_movedBoard_other _ _ _ _ _ hkS hkD (fun hc e => hkC ⟨hc, e⟩)

/-- Witness of C4: the jump A3→C5 over the black piece on B4. -/
theorem move_effect_frame_witness :
    (postMove jumpGame (lit "A3") (lit "C5")).1 = MoveOutcome.accepted jumpBody ∧
    ∃ source, jumpGame.Board.lookup (lit "A3") = some source ∧ source.IsOccupied = true ∧
      source.Color = jumpGame.Turn ∧
      (∀ d, jumpGame.Board.lookup (lit "C5") = some d → d.IsOccupied = false) ∧
      (∃ p, (postMove jumpGame (lit "A3") (lit "C5")).2.Board.lookup (lit "A3") = some p ∧
        p.IsOccupied = false) ∧
      (postMove jumpGame (lit "A3") (lit "C5")).2.Board.lookup (lit "C5") =
        some ⟨true, source.IsKing || jumpBody.promoted, source.Color⟩ ∧
      (∀ k, k ≠ lit "A3" → k ≠ lit "C5" →
        ¬ (jumpBody.captured = true ∧ k = jumpBody.captured_pos) →
        (postMove jumpGame (lit "A3") (lit "C5")).2.Board.lookup k =
          jumpGame.Board.lookup k) ∧
      jumpBody.board = (postMove jumpGame (lit "A3") (lit "C5")).2.Board :=
  ⟨rfl, move_effect_frame jumpGame (lit "A3") (lit "C5") jumpBody rfl⟩

/-! ## Apply Move: capture -/

/-- C5. For an accepted move between labels of column bytes `c1`, `c2` and row
digits `r1`, `r2`, the midpoint label of `captureMove` is the byte
`(c1 + c2) / 2` followed by the digit of `(r1 + r2) / 2`; `captured` is true
exactly when the midpoint is a key of the board bound to an occupied piece
whose colour is not the turn before the move, and then `captured_pos` is the
midpoint label and the midpoint square is unoccupied afterwards; otherwise
`captured` is false, `captured_pos` is empty and every square other than the
source and the destination is bound as before. -/
theorem capture_by_midpoint (game : GameState) (c1 r1 c2 r2 : Nat) (body : MoveBody)
    (hc1 : c1 < 256) (hc2 : c2 < 256) (hr1 : r1 ≤ 9) (hr2 : r2 ≤ 9)
    (h : (postMove game [c1, 48 + r1] [c2, 48 + r2]).1 = MoveOutcome.accepted body) :
    midPosOf c1 (48 + r1) c2 (48 + r2) = [(c1 + c2) / 2, 48 + (r1 + r2) / 2] ∧
    (body.captured = true ↔
      ∃ piece, game.Board.lookup [(c1 + c2) / 2, 48 + (r1 + r2) / 2] = some piece ∧
        piece.IsOccupied = true ∧ piece.Color ≠ game.Turn) ∧
    (body.captured = true →
      body.captured_pos = [(c1 + c2) / 2, 48 + (r1 + r2) / 2] ∧
      ∃ p, (postMove game [c1, 48 + r1] [c2, 48 + r2]).2.Board.lookup
          [(c1 + c2) / 2, 48 + (r1 + r2) / 2] = some p ∧ p.IsOccupied = false) ∧
    (body.captured = false →
      body.captured_pos = [] ∧
      ∀ k, k ≠ [c1, 48 + r1] → k ≠ [c2, 48 + r2] →
        (postMove game [c1, 48 + r1] [c2, 48 + r2]).2.Board.lookup k =
          game.Board.lookup k) := by
  have hmid : midPosOf c1 (48 + r1) c2 (48 + r2) = [(c1 + c2) / 2, 48 + (r1 + r2) / 2] := by
    rw [midPosOf_digits c1 c2 r1 r2 hr1 hr2, Nat.mod_eq_of_lt (by omega)]
  obtain ⟨source, hS, hocc, hcol, hD, hne, hcm, -, hB, -, hcap⟩ := accepted_facts h
  rw [captureMove_cons, hmid] at hcm
  refine ⟨hmid, ?_, ?_, ?_⟩
  · constructor
    · intro hc
      obtain ⟨-, -, piece, hl, ho, hcl⟩ := hcap hc
      cases hl2 : game.Board.lookup [(c1 + c2) / 2, 48 + (r1 + r2) / 2] with
      | none => rw [hl2, hc] at hcm; simp at hcm
      | some q =>
        rw [hl2] at hcm
        simp only at hcm
        by_cases hq : q.IsOccupied = true ∧ q.Color ≠ game.Turn
        · exact ⟨q, rfl, hq.1, hq.2⟩
        · rw [if_neg hq, hc] at hcm
          simp at hcm
    · rintro ⟨piece, hl, ho, hcl⟩
      rw [hl] at hcm
      simp only at hcm
      rw [if_pos ⟨ho, hcl⟩] at hcm
      simp only [Option.some.injEq, Prod.mk.injEq] at hcm
      exact hcm.1.symm
  · intro hc
    obtain ⟨hpS, hpD, piece, hl, ho, hcl⟩ := hcap hc
    have hpos : body.captured_pos = [(c1 + c2) / 2, 48 + (r1 + r2) / 2] := by
      cases hl2 : game.Board.lookup [(c1 + c2) / 2, 48 + (r1 + r2) / 2] with
      | none => rw [hl2, hc] at hcm; simp at hcm
      | some q =>
        rw [hl2] at hcm
        simp only at hcm
        by_cases hq : q.IsOccupied = true ∧ q.Color ≠ game.Turn
        · rw [if_pos hq] at hcm
          simp only [Option.some.injEq, Prod.mk.injEq] at hcm
          exact hcm.2.symm
        · rw [if_neg hq, hc] at hcm
          simp at hcm
    refine ⟨hpos, ?_⟩
    rw [hB, hc, ← hpos]
    exact ⟨_, lookup_movedBoard_captured _ _ _ _ hpS hpD hl, rfl⟩
  · intro hc
    constructor
    · cases hl2 : game.Board.lookup [(c1 + c2) / 2, 48 + (r1 + r2) / 2] with
      | none =>
        rw [hl2] at hcm
        simp only [Option.some.injEq, Prod.mk.injEq] at hcm
        exact hcm.2.symm
      | some q =>
        rw [hl2] at hcm
        simp only at hcm
        by_cases hq : q.IsOccupied = true ∧ q.Color ≠ game.Turn
        · rw [if_pos hq, hc] at hcm
          simp at hcm
        · rw [if_neg hq] at hcm
          simp only [Option.some.injEq, Prod.mk.injEq] at hcm
          exact hcm.2.symm
    · intro k hkS hkD
      rw [hB]
      exact lookup_movedBoard_other _ _ _ _ _ hkS hkD (fun e => by rw [hc] at e; cases e)

/-- Witness of C5: the jump A3→C5 (bytes 65, 51 and 67, 53) in `jumpGame`. -/
theorem capture_by_midpoint_witness :
    (postMove jumpGame [65, 48 + 3] [67, 48 + 5]).1 = MoveOutcome.accepted jumpBody ∧
    midPosOf 65 (48 + 3) 67 (48 + 5) = [(65 + 67) / 2, 48 + (3 + 5) / 2] ∧
    (jumpBody.captured = true ↔
      ∃ piece, jumpGame.Board.lookup [(65 + 67) / 2, 48 + (3 + 5) / 2] = some piece ∧
        piece.IsOccupied = true ∧ piece.Color ≠ jumpGame.Turn) ∧
    (jumpBody.captured = true →
      jumpBody.captured_pos = [(65 + 67) / 2, 48 + (3 + 5) / 2] ∧
      ∃ p, (postMove jumpGame [65, 48 + 3] [67, 48 + 5]).2.Board.lookup
          [(65 + 67) / 2, 48 + (3 + 5) / 2] = some p ∧ p.IsOccupied = false) ∧
    (jumpBody.captured = false →
      jumpBody.captured_pos = [] ∧
      ∀ k, k ≠ [65, 48 + 3] → k ≠ [67, 48 + 5] →
        (postMove jumpGame [65, 48 + 3] [67, 48 + 5]).2.Board.lookup k =
          jumpGame.Board.lookup k) :=
  ⟨rfl, capture_by_midpoint jumpGame 65 3 67 5 jumpBody (by decide) (by decide) (by decide)
    (by decide) rfl⟩

/-- C6. For a source label with column A–H and row 1–8 and a destination
label with column A–H and row 1–8 exactly two columns and two rows away, in
any of the four directions, the midpoint label of `captureMove` is the square
one column and one row from the lower of each; and when the source holds an
occupied piece of the colour to move, the destination is free and that square
holds an occupied piece of another colour, the move is accepted with
`captured` true and `captured_pos` that label, and the square is unoccupied
afterwards. -/
theorem jump_captures_between (c1 r1 c2 r2 : Nat)
    (hc1 : 65 ≤ c1 ∧ c1 ≤ 72) (hr1 : 1 ≤ r1 ∧ r1 ≤ 8)
    (hc2 : 65 ≤ c2 ∧ c2 ≤ 72) (hr2 : 1 ≤ r2 ∧ r2 ≤ 8)
    (hcol : c2 = c1 + 2 ∨ c1 = c2 + 2) (hrow : r2 = r1 + 2 ∨ r1 = r2 + 2) :
    midPosOf c1 (48 + r1) c2 (48 + r2) = [min c1 c2 + 1, 48 + (min r1 r2 + 1)] ∧
    ∀ (game : GameState) (source opp : PieceState),
      game.Board.lookup [c1, 48 + r1] = some source → source.IsOccupied = true →
      source.Color = game.Turn →
      (∀ d, game.Board.lookup [c2, 48 + r2] = some d → d.IsOccupied = false) →
      game.Board.lookup [min c1 c2 + 1, 48 + (min r1 r2 + 1)] = some opp →
      opp.IsOccupied = true → opp.Color ≠ game.Turn →
      ∃ body, (postMove game [c1, 48 + r1] [c2, 48 + r2]).1 = MoveOutcome.accepted body ∧
        body.captured = true ∧
        body.captured_pos = [min c1 c2 + 1, 48 + (min r1 r2 + 1)] ∧
        ∃ p, (postMove game [c1, 48 + r1] [c2, 48 + r2]).2.Board.lookup
            [min c1 c2 + 1, 48 + (min r1 r2 + 1)] = some p ∧ p.IsOccupied = false := by
  have hmid : midPosOf c1 (48 + r1) c2 (48 + r2) =
      [min c1 c2 + 1, 48 + (min r1 r2 + 1)] := by
    rw [midPosOf_digits c1 c2 r1 r2 (by omega) (by omega), Nat.mod_eq_of_lt (by omega)]
    have e1 : (c1 + c2) / 2 = min c1 c2 + 1 := by omega
    have e2 : (r1 + r2) / 2 = min r1 r2 + 1 := by omega
    rw [e1, e2]
  refine ⟨hmid, ?_⟩
  intro game source opp hS hocc hcl hD hM hMo hMc
  obtain ⟨body, hb⟩ := postMove_accepts hS hocc hcl hD
  obtain ⟨src, hS2, -, -, -, -, hcm, -, hB, -, hcap⟩ := accepted_facts hb
  rw [captureMove_cons, hmid, hM] at hcm
  simp only at hcm
  rw [if_pos ⟨hMo, hMc⟩] at hcm
  simp only [Option.some.injEq, Prod.mk.injEq] at hcm
  obtain ⟨hc, hpos⟩ := hcm
  obtain ⟨hpS, hpD, -⟩ := hcap hc.symm
  rw [← hpos] at hpS hpD
  refine ⟨body, hb, hc.symm, hpos.symm, ?_⟩
  rw [hB, ← hc, ← hpos]
  exact ⟨_, lookup_movedBoard_captured _ _ _ _ hpS hpD hM, rfl⟩

/-- Witness of C6: red on A3, black on B4, the move A3→C5 answers
`captured_pos` "B4" and leaves B4 unoccupied. -/
theorem jump_captures_between_witness :
    midPosOf 65 (48 + 3) 67 (48 + 5) = lit "B4" ∧
    ∃ body, (postMove jumpGame (lit "A3") (lit "C5")).1 = MoveOutcome.accepted body ∧
      body.captured = true ∧ body.captured_pos = lit "B4" ∧
      ∃ p, (postMove jumpGame (lit "A3") (lit "C5")).2.Board.lookup (lit "B4") = some p ∧
        p.IsOccupied = false :=
  ⟨(jump_captures_between 65 3 67 5 (by decide) (by decide) (by decide) (by decide)
      (Or.inl rfl) (Or.inl rfl)).1,
    (jump_captures_between 65 3 67 5 (by decide) (by decide) (by decide) (by decide)
      (Or.inl rfl) (Or.inl rfl)).2 jumpGame ⟨true, false, "red"⟩ ⟨true, false, "black"⟩
      (by decide) rfl rfl (by decide) (by decide) rfl (by decide)⟩

/-! ## Apply Move: promotion -/

/-- C7. For an accepted move to a destination label made of a column byte
(A–H or any other) and a row digit 1–8, `promoted` is true exactly when the
moving piece is red and the destination row is 8, or the moving piece is black
and the destination row is 1. -/
theorem promoted_iff_far_row (game : GameState) (S : GoString) (c2 r2 : Nat)
    (body : MoveBody) (source : PieceState)
    (hr2 : 1 ≤ r2 ∧ r2 ≤ 8)
    (h : (postMove game S [c2, 48 + r2]).1 = MoveOutcome.accepted body)
    (hS : game.Board.lookup S = some source) :
    body.promoted = true ↔
      (source.Color = "red" ∧ r2 = 8) ∨ (source.Color = "black" ∧ r2 = 1) := by
  obtain ⟨src, hS2, -, -, -, -, -, hp, -⟩ := accepted_facts h
  rw [hS] at hS2
  cases hS2
  rw [checkPromotion_cons, atoiByte_digit _ (by omega) (by omega)] at hp
  simp only [Option.some.injEq] at hp
  rw [← hp]
  simp only [decide_eq_true_eq]
  have e8 : (((48 + r2 - 48 : Nat) : Int) = 8) ↔ r2 = 8 := by omega
  have e1 : (((48 + r2 - 48 : Nat) : Int) = 1) ↔ r2 = 1 := by omega
  rw [e8, e1]

/-- Witness of C7: the red piece on G7 moves to H8 and is promoted. -/
theorem promoted_iff_far_row_witness :
    (postMove crownGame (lit "G7") [72, 48 + 8]).1 = MoveOutcome.accepted crownBody ∧
    (crownBody.promoted = true ↔
      (("red" : String) = "red" ∧ 8 = 8) ∨ (("red" : String) = "black" ∧ 8 = 1)) :=
  ⟨rfl, promoted_iff_far_row crownGame (lit "G7") 72 8 crownBody ⟨true, false, "red"⟩
    (by decide) rfl (by decide)⟩

/-- C8. Once king, always king: after an accepted move the destination holds
an occupied piece of the colour of the source piece that is a king whenever the
source piece was one, whatever the destination and the promotion flag; and
when the source piece was not a king, the piece at the destination is a king
exactly when the move promoted. -/
theorem king_flag_persists (game : GameState) (S D : GoString) (body : MoveBody)
    (source : PieceState)
    (h : (postMove game S D).1 = MoveOutcome.accepted body)
    (hS : game.Board.lookup S = some source) :
    ∃ d, (postMove game S D).2.Board.lookup D = some d ∧ d.IsOccupied = true ∧
      d.Color = source.Color ∧
      (source.IsKing = true → d.IsKing = true) ∧
      (source.IsKing = false → (d.IsKing = true ↔ body.promoted = true)) := by
  obtain ⟨src, hS2, -, -, -, -, -, -, hB, -⟩ := accepted_facts h
  rw [hS] at hS2
  cases hS2
  refine ⟨⟨true, source.IsKing || body.promoted, source.Color⟩,
    by rw [hB, lookup_movedBoard_dest], rfl, rfl, ?_, ?_⟩
  · intro hk
    simp [hk]
  · intro hk
    simp [hk]

/-- Witness of C8: the red king on C3 moves to D4, not a far row, and is still
a king there. -/
theorem king_flag_persists_witness :
    (postMove kingGame (lit "C3") (lit "D4")).1 = MoveOutcome.accepted kingBody ∧
    ∃ d, (postMove kingGame (lit "C3") (lit "D4")).2.Board.lookup (lit "D4") = some d ∧
      d.IsOccupied = true ∧ d.Color = "red" ∧
      ((true : Bool) = true → d.IsKing = true) ∧
      ((true : Bool) = false → (d.IsKing = true ↔ kingBody.promoted = true)) :=
  ⟨rfl, king_flag_persists kingGame (lit "C3") (lit "D4") kingBody ⟨true, true, "red"⟩
    rfl (by decide)⟩

/-! ## Apply Move: the turn -/

/-- The turn after a run of move requests from a state whose turn is red or
black: the turn of the start after an even number of accepted moves, the
other colour after an odd number. -/
theorem run_moves_turn (ms : List (GoString × GoString)) :
    ∀ game : GameState, game.Turn = "red" ∨ game.Turn = "black" →
      (run game (moveRequests ms)).Turn =
        if acceptedCount game (moveRequests ms) % 2 = 0 then game.Turn
        else (if game.Turn = "red" then "black" else "red") := by
  induction ms with
  | nil =>
    intro game _
    simp [moveRequests, run, acceptedCount]
  | cons m ms ih =>
    intro game hg
    have hrun : run game (moveRequests (m :: ms)) =
        run (postMove game m.1 m.2).2 (moveRequests ms) := rfl
    have hcnt : acceptedCount game (moveRequests (m :: ms)) =
        (if isAccepted game (Request.postMove m.1 m.2) = true then 1 else 0) +
          acceptedCount (postMove game m.1 m.2).2 (moveRequests ms) := rfl
    rw [hrun, hcnt]
    by_cases hacc : ∃ body, (postMove game m.1 m.2).1 = MoveOutcome.accepted body
    · obtain ⟨body, hb⟩ := hacc
      obtain ⟨-, -, -, -, -, -, -, -, -, hT, -⟩ := accepted_facts hb
      have hia : isAccepted game (Request.postMove m.1 m.2) = true := by
        simp [isAccepted, hb]
      have hg2 : (postMove game m.1 m.2).2.Turn = "red" ∨
          (postMove game m.1 m.2).2.Turn = "black" := by
        rw [hT]
        by_cases hr : game.Turn = "red"
        · right; simp [hr]
        · left; simp [hr]
      rw [ih _ hg2, hia, hT]
      rcases hg with hr | hbk
      · rw [hr]
        simp only [if_true]
        have : ¬ (("black" : String) = "red") := by decide
        simp only [this, if_false]
        split_ifs <;> first | rfl | omega
      · rw [hbk]
        have : ¬ (("black" : String) = "red") := by decide
        simp only [this, if_false, if_true]
        split_ifs <;> first | rfl | omega
    · have hna : ∀ body, (postMove game m.1 m.2).1 ≠ MoveOutcome.accepted body :=
        fun body hb => hacc ⟨body, hb⟩
      have hst := postMove_not_accepted hna
      have hia : isAccepted game (Request.postMove m.1 m.2) = false := by
        cases ho : (postMove game m.1 m.2).1 with
        | rejected msg => simp [isAccepted, ho]
        | fault => simp [isAccepted, ho]
        | accepted body => exact absurd ho (hna body)
      rw [hst, ih _ hg, hia]
      simp

/-- C9. An accepted move toggles the turn, from red to black and from black to
red, and the body reports the new turn; a move that is not accepted leaves the
turn as it was; and after any sequence of move requests handled from the fresh
game the turn is red when the number of accepted moves so far is even and
black when it is odd, so the n-th accepted move is made by red for n odd and by
black for n even. -/
theorem turn_alternates (game : GameState) (S D : GoString)
    (ms : List (GoString × GoString)) :
    (∀ body, (postMove game S D).1 = MoveOutcome.accepted body →
      (game.Turn = "red" → (postMove game S D).2.Turn = "black") ∧
      (game.Turn = "black" → (postMove game S D).2.Turn = "red") ∧
      body.turn = (postMove game S D).2.Turn) ∧
    ((∀ body, (postMove game S D).1 ≠ MoveOutcome.accepted body) →
      (postMove game S D).2.Turn = game.Turn) ∧
    (run newGame (moveRequests ms)).Turn =
      if acceptedCount newGame (moveRequests ms) % 2 = 0 then "red" else "black" := by
  refine ⟨?_, ?_, ?_⟩
  · intro body hb
    obtain ⟨-, -, -, -, -, -, -, -, -, hT, -⟩ := accepted_facts hb
    obtain ⟨_, _, _, _, _, _, _, _, _, _, _, _, _, _, _, hbt, _⟩ := postMove_accepted_inv hb
    refine ⟨?_, ?_, hbt⟩
    · intro hr
      rw [hT, if_pos hr]
    · intro hbk
      rw [hT, hbk]
      decide
  · intro hna
    rw [postMove_not_accepted hna]
  · have := run_moves_turn ms newGame (Or.inl rfl)
    rw [this]
    rfl

/-- An instance of C9: in the fresh game a rejected move (A3→B4) is followed
by two accepted moves (C3→D4 by red, F4→E5 by black) and the turn is red
again. -/
theorem turn_alternates_witness :
    acceptedCount newGame (moveRequests
      [(lit "A3", lit "B4"), (lit "C3", lit "D4"), (lit "F4", lit "E5")]) = 2 ∧
    (run newGame (moveRequests
      [(lit "A3", lit "B4"), (lit "C3", lit "D4"), (lit "F4", lit "E5")])).Turn = "red" :=
  ⟨by decide,
    (turn_alternates newGame [] []
      [(lit "A3", lit "B4"), (lit "C3", lit "D4"), (lit "F4", lit "E5")]).2.2.trans
      (by decide)⟩

/-! ## Apply Move: the number of occupied squares -/

/-- C10. After an accepted move the number of occupied squares is the number
before minus one when `captured` is true and the number before when it is
false; so it never increases. -/
theorem occupied_count_after_move (game : GameState) (S D : GoString) (body : MoveBody)
    (h : (postMove game S D).1 = MoveOutcome.accepted body) :
    occupiedCount (postMove game S D).2.Board + (if body.captured = true then 1 else 0) =
      occupiedCount game.Board ∧
    occupiedCount (postMove game S D).2.Board ≤ occupiedCount game.Board := by
  obtain ⟨source, hS, hocc, hcol, hD, hne, -, -, hB, -, hcap⟩ := accepted_facts h
  have key : occupiedCount (postMove game S D).2.Board +
      (if body.captured = true then 1 else 0) = occupiedCount game.Board := by
    rw [hB]
    refine occupiedCount_movedBoard game.Board _ _ _ hS hocc hD hne ?_
    intro hc
    obtain ⟨h1, h2, piece, hl, ho, -⟩ := hcap hc
    exact ⟨h1, h2, piece, hl, ho⟩
  exact ⟨key, by omega⟩

/-- Witness of C10: the jump A3→C5 in `jumpGame` leaves one occupied square of
the two. -/
theorem occupied_count_after_move_witness :
    (postMove jumpGame (lit "A3") (lit "C5")).1 = MoveOutcome.accepted jumpBody ∧
    occupiedCount (postMove jumpGame (lit "A3") (lit "C5")).2.Board +
        (if jumpBody.captured = true then 1 else 0) = occupiedCount jumpGame.Board ∧
    occupiedCount (postMove jumpGame (lit "A3") (lit "C5")).2.Board ≤
      occupiedCount jumpGame.Board :=
  ⟨rfl, occupied_count_after_move jumpGame (lit "A3") (lit "C5") jumpBody rfl⟩

/-! ## Counting the squares of a colour -/

/-- Erasing a key from an entry list lowers the number of occupied entries of
a colour by one exactly when the key was bound to an occupied piece of that
colour. -/
theorem countP_kerase_color (color : String) (key : GoString)
    (l : List (Sigma (fun _ : GoString => PieceState))) :
    (List.kerase key l).countP (fun e => e.2.IsOccupied && e.2.Color == color) +
        (match List.dlookup key l with
          | some v => if (v.IsOccupied && v.Color == color) = true then 1 else 0
          | none => 0) =
      l.countP (fun e => e.2.IsOccupied && e.2.Color == color) := by
  induction l with
  | nil => simp
  | cons e l ih =>
    obtain ⟨k, v⟩ := e
    by_cases hk : key = k
    · subst hk
      have hke : List.kerase key (⟨key, v⟩ :: l) = l := List.kerase_cons_eq rfl
      simp only [hke, List.dlookup_cons_eq, List.countP_cons]
    · rw [List.kerase_cons_ne hk, List.dlookup_cons_ne _ _ hk, List.countP_cons,
        List.countP_cons]
      omega

/-- A map write changes the number of occupied squares of a colour by what is
written minus what was read before at the key. -/
theorem colorCount_assign (board : Board) (key : GoString) (v : PieceState)
    (color : String) :
    colorCount (board.assign key v) color +
        (if ((board.index key).1.IsOccupied && (board.index key).1.Color == color) = true
          then 1 else 0) =
      colorCount board color +
        (if (v.IsOccupied && v.Color == color) = true then 1 else 0) := by
  have hk := countP_kerase_color color key board.entries
  unfold colorCount Board.assign Board.index
  rw [AList.insert_entries, List.countP_cons]
  unfold AList.lookup
  cases hl : List.dlookup key board.entries with
  | none =>
    rw [hl] at hk
    simp only [PieceState.zero] at hk ⊢
    simp at hk ⊢
    omega
  | some w =>
    rw [hl] at hk
    simp only at hk ⊢
    omega

/-- A key bound to an occupied piece of a colour is counted. -/
theorem colorCount_pos_of_lookup {board : Board} {key : GoString} {p : PieceState}
    (hl : board.lookup key = some p) (ho : p.IsOccupied = true) :
    0 < colorCount board p.Color := by
  unfold colorCount
  rw [List.countP_pos_iff]
  have hm : (⟨key, p⟩ : Sigma (fun _ : GoString => PieceState)) ∈ board.entries :=
    AList.mem_lookup_iff.mp hl
  exact ⟨⟨key, p⟩, hm, by simp [ho]⟩

/-- The three map writes of an accepted move, counted by colour: the board
written holds as many occupied squares of each colour as before, less one for
the colour of a captured piece. -/
theorem colorCount_movedBoard (board : Board) {S D : GoString} {source : PieceState}
    (isCapture : Bool) (capturedPos : GoString) (isPromotion : Bool) (color : String)
    (hS : board.lookup S = some source) (hocc : source.IsOccupied = true)
    (hD : ∀ d, board.lookup D = some d → d.IsOccupied = false) (hne : S ≠ D)
    (hcap : isCapture = true → capturedPos ≠ S ∧ capturedPos ≠ D ∧
      ∃ piece, board.lookup capturedPos = some piece ∧ piece.IsOccupied = true) :
    colorCount (movedBoard board S D source isCapture capturedPos isPromotion) color +
        (if isCapture = true ∧ (board.index capturedPos).1.Color = color then 1 else 0) =
      colorCount board color := by
  have hfree : ∀ b : Board, b.lookup D = board.lookup D →
      (b.index D).1.IsOccupied = false := by
    intro b hb
    unfold Board.index
    rw [hb]
    cases hl : board.lookup D with
    | none => rfl
    | some d => exact hD d hl
  cases isCapture with
  | false =>
    simp only [movedBoard, Bool.false_eq_true, if_false, false_and, add_zero]
    have h2 := colorCount_assign board S
      ⟨false, source.IsKing || isPromotion, source.Color⟩ color
    have h3 := colorCount_assign
      (board.assign S ⟨false, source.IsKing || isPromotion, source.Color⟩) D
      ⟨true, source.IsKing || isPromotion, source.Color⟩ color
    rw [index_fst_of_lookup hS] at h2
    rw [hfree _ (lookup_assign_ne _ _ hne.symm)] at h3
    by_cases hc : source.Color = color
    · subst hc
      simp [hocc] at h2 h3
      omega
    · simp [hocc, hc] at h2 h3
      omega
  | true =>
    obtain ⟨hpS, hpD, piece, hl, ho⟩ := hcap rfl
    simp only [movedBoard, if_true, index_fst_of_lookup hl, true_and]
    have h1 := colorCount_assign board capturedPos { piece with IsOccupied := false } color
    have h2 := colorCount_assign
      (board.assign capturedPos { piece with IsOccupied := false }) S
      ⟨false, source.IsKing || isPromotion, source.Color⟩ color
    have h3 := colorCount_assign
      ((board.assign capturedPos { piece with IsOccupied := false }).assign S
        ⟨false, source.IsKing || isPromotion, source.Color⟩) D
      ⟨true, source.IsKing || isPromotion, source.Color⟩ color
    have hS1 : (board.assign capturedPos { piece with IsOccupied := false }).lookup S =
        some source := by
      rw [lookup_assign_ne _ _ hpS.symm, hS]
    have hD2 : ((board.assign capturedPos { piece with IsOccupied := false }).assign S
        ⟨false, source.IsKing || isPromotion, source.Color⟩).lookup D = board.lookup D := by
      rw [lookup_assign_ne _ _ hne.symm, lookup_assign_ne _ _ hpD.symm]
    rw [hfree _ hD2] at h3
    rw [index_fst_of_lookup hS1] at h2
    rw [index_fst_of_lookup hl] at h1
    by_cases hc : source.Color = color
    · subst hc
      by_cases hp : piece.Color = source.Color
      · simp [hocc, ho, hp] at h1 h2 h3 ⊢
        omega
      · simp [hocc, ho, hp] at h1 h2 h3 ⊢
        omega
    · by_cases hp : piece.Color = color
      · simp [hocc, ho, hc, hp] at h1 h2 h3 ⊢
        omega
      · simp [hocc, ho, hc, hp] at h1 h2 h3 ⊢
        omega

/-! ## Check Winner -/

/-- The loop of `checkWinner` from any counters adds to them the numbers of
occupied red and occupied black entries. -/
theorem foldl_countStep (l : List (Sigma (fun _ : GoString => PieceState)))
    (counts : Nat × Nat) :
    l.foldl (fun counts e => countStep counts e.2) counts =
      (counts.1 + l.countP (fun e => e.2.IsOccupied && e.2.Color == "red"),
        counts.2 + l.countP (fun e => e.2.IsOccupied && e.2.Color == "black")) := by
  induction l generalizing counts with
  | nil => simp
  | cons e l ih =>
    rw [List.foldl_cons, ih, List.countP_cons, List.countP_cons]
    unfold countStep
    cases ho : e.2.IsOccupied with
    | false => simp
    | true =>
      by_cases hr : e.2.Color = "red"
      · have hb : ¬ e.2.Color = "black" := by rw [hr]; decide
        simp [hr]
        omega
      · by_cases hb : e.2.Color = "black"
        · simp [hb]
          omega
        · simp [hr, hb]

/-- The counters of `checkWinner` are the numbers of occupied red and occupied
black squares. -/
theorem countPieces_eq (board : Board) :
    countPieces board = (colorCount board "red", colorCount board "black") := by
  unfold countPieces colorCount
  rw [foldl_countStep]
  simp

/-- The state `checkWinner` leaves, by the two colour counts. -/
theorem checkWinner_eq (game : GameState) :
    checkWinner game =
      if colorCount game.Board "red" = 0 then
        { game with Status := "won", Winner := "black" }
      else if colorCount game.Board "black" = 0 then
        { game with Status := "won", Winner := "red" }
      else { game with Status := "ongoing", Winner := "" } := by
  unfold checkWinner
  rw [countPieces_eq]

/-- The state `checkWinner` leaves depends on the board only through the
counts, and its board is the one it was given: running it again changes
nothing. -/
theorem checkWinner_checkWinner (game : GameState) :
    checkWinner (checkWinner game) = checkWinner game := by
  rw [checkWinner_eq game]
  split_ifs with h1 h2
  · rw [checkWinner_eq]
    simp [h1]
  · rw [checkWinner_eq]
    simp [h1, h2]
  · rw [checkWinner_eq]
    simp [h1, h2]

/-- C11. For every game state `checkWinner` counts the occupied red and the
occupied black pieces of all board entries; it sets status won and winner
black when the red count is zero (also when both are zero), otherwise status
won and winner red when the black count is zero, otherwise status ongoing and
winner empty; the board and the turn are left as they were. -/
theorem checkWinner_by_counts (game : GameState) :
    countPieces game.Board = (colorCount game.Board "red", colorCount game.Board "black") ∧
    (colorCount game.Board "red" = 0 →
      (checkWinner game).Status = "won" ∧ (checkWinner game).Winner = "black") ∧
    (colorCount game.Board "red" ≠ 0 → colorCount game.Board "black" = 0 →
      (checkWinner game).Status = "won" ∧ (checkWinner game).Winner = "red") ∧
    (colorCount game.Board "red" ≠ 0 → colorCount game.Board "black" ≠ 0 →
      (checkWinner game).Status = "ongoing" ∧ (checkWinner game).Winner = "") ∧
    (checkWinner game).Board = game.Board ∧ (checkWinner game).Turn = game.Turn ∧
    handle game Request.getCheckWinner = checkWinner game := by
  refine ⟨countPieces_eq _, ?_, ?_, ?_, checkWinner_Board _, checkWinner_Turn _, rfl⟩
  · intro h
    rw [checkWinner_eq, if_pos h]
    exact ⟨rfl, rfl⟩
  · intro h1 h2
    rw [checkWinner_eq, if_neg h1, if_pos h2]
    exact ⟨rfl, rfl⟩
  · intro h1 h2
    rw [checkWinner_eq, if_neg h1, if_neg h2]
    exact ⟨rfl, rfl⟩

/-- C12. `checkWinner` is idempotent: run twice in a row it leaves the state
(status, winner, board and turn) that one run leaves. -/
theorem checkWinner_idempotent (game : GameState) :
    checkWinner (checkWinner game) = checkWinner game ∧
    handle (handle game Request.getCheckWinner) Request.getCheckWinner =
      handle game Request.getCheckWinner :=
  ⟨checkWinner_checkWinner game, checkWinner_checkWinner game⟩

/-! ## The invariant of the reachable states -/

theorem lookup_assign_cases {board : Board} {key k : GoString} {v p : PieceState}
    (h : (board.assign key v).lookup k = some p) : p = v ∨ board.lookup k = some p := by
  by_cases hk : k = key
  · subst hk
    rw [lookup_assign_self] at h
    cases h
    exact Or.inl rfl
  · rw [lookup_assign_ne _ _ hk] at h
    exact Or.inr h

theorem mem_keys_assign {board : Board} {key k : GoString} {v : PieceState}
    (h : k ∈ (board.assign key v).keys) : k = key ∨ k ∈ board.keys := by
  rw [← AList.mem_keys] at h ⊢
  unfold Board.assign at h
  rw [AList.mem_insert] at h
  exact h

theorem mem_keys_of_lookup {board : Board} {k : GoString} {p : PieceState}
    (h : board.lookup k = some p) : k ∈ board.keys := by
  rw [← AList.mem_keys, ← AList.lookup_isSome, h]
  rfl

/-- The fresh game satisfies the invariant. -/
theorem sound_newGame : Sound newGame := by
  refine ⟨Or.inl rfl, ?_, by decide, ?_, by decide, by decide⟩
  · intro k p h
    have hm : (⟨k, p⟩ : Sigma (fun _ : GoString => PieceState)) ∈ newGame.Board.entries :=
      AList.mem_lookup_iff.mp h
    have hall : ∀ e ∈ newGame.Board.entries, e.2.Color = "red" ∨ e.2.Color = "black" := by
      decide
    exact hall _ hm
  · rw [checkWinner_eq, if_neg (by decide), if_neg (by decide)]
    rfl

theorem otherColor_otherColor {color : String} (h : color = "red" ∨ color = "black") :
    otherColor (otherColor color) = color := by
  rcases h with h | h <;> subst h <;> decide

/-- Every piece of the board of an accepted move is one written by the handler
or a piece of the board before. -/
theorem lookup_movedBoard_cases {board : Board} {S D k : GoString} {source p : PieceState}
    {isCapture : Bool} {capturedPos : GoString} {isPromotion : Bool}
    (h : (movedBoard board S D source isCapture capturedPos isPromotion).lookup k = some p) :
    p.Color = source.Color ∨
      (isCapture = true ∧ p.Color = (board.index capturedPos).1.Color) ∨
      board.lookup k = some p := by
  unfold movedBoard at h
  rcases lookup_assign_cases h with h1 | h1
  · left; rw [h1]
  · rcases lookup_assign_cases h1 with h2 | h2
    · left; rw [h2]
    · cases isCapture with
      | false => right; right; simpa using h2
      | true =>
        simp only [if_true] at h2
        rcases lookup_assign_cases h2 with h3 | h3
        · right; left; rw [h3]; exact ⟨rfl, rfl⟩
        · right; right; exact h3

/-- Every key of the board of an accepted move is one of the three keys
written or a key of the board before. -/
theorem mem_keys_movedBoard {board : Board} {S D k : GoString} {source : PieceState}
    {isCapture : Bool} {capturedPos : GoString} {isPromotion : Bool}
    (h : k ∈ (movedBoard board S D source isCapture capturedPos isPromotion).keys) :
    k = D ∨ k = S ∨ (isCapture = true ∧ k = capturedPos) ∨ k ∈ board.keys := by
  unfold movedBoard at h
  rcases mem_keys_assign h with h1 | h1
  · exact Or.inl h1
  · rcases mem_keys_assign h1 with h2 | h2
    · exact Or.inr (Or.inl h2)
    · cases isCapture with
      | false => right; right; right; simpa using h2
      | true =>
        simp only [if_true] at h2
        rcases mem_keys_assign h2 with h3 | h3
        · exact Or.inr (Or.inr (Or.inl ⟨rfl, h3⟩))
        · exact Or.inr (Or.inr (Or.inr h3))

/-- The move handler keeps the invariant. -/
theorem sound_postMove {game : GameState} (hg : Sound game) (S D : GoString) :
    Sound (postMove game S D).2 := by
  rcases postMove_cases game S D with ⟨msg, hm⟩ | hf | ⟨body, hb⟩
  · rw [hm]; exact hg
  · rw [hf]; exact hg
  · obtain ⟨source, hS, hocc, hcol, hD, hne, hcm, -, hB, hT, hcap⟩ := accepted_facts hb
    obtain ⟨_, _, _, _, _, _, _, _, _, _, hst, _⟩ := postMove_accepted_inv hb
    have hcap2 : body.captured = true → body.captured_pos ≠ S ∧ body.captured_pos ≠ D ∧
        ∃ piece, game.Board.lookup body.captured_pos = some piece ∧
          piece.IsOccupied = true := by
      intro hc
      obtain ⟨h1, h2, piece, hl, ho, -⟩ := hcap hc
      exact ⟨h1, h2, piece, hl, ho⟩
    have hcount := fun color => colorCount_movedBoard game.Board body.captured
      body.captured_pos body.promoted color hS hocc hD hne hcap2
    have hsrc : source.Color = "red" ∨ source.Color = "black" := hg.colors S source hS
    refine ⟨?_, ?_, ?_, ?_, ?_, ?_⟩
    · rw [hT]
      by_cases hr : game.Turn = "red"
      · right; rw [if_pos hr]
      · left; rw [if_neg hr]
    · intro k p hl
      rw [hB] at hl
      rcases lookup_movedBoard_cases hl with h1 | ⟨hc, h1⟩ | h1
      · rw [h1]; exact hsrc
      · obtain ⟨-, -, piece, hl3, -⟩ := hcap2 hc
        rw [h1, index_fst_of_lookup hl3]
        exact hg.colors _ piece hl3
      · exact hg.colors k p h1
    · have hT2 : (postMove game S D).2.Turn = otherColor game.Turn := hT
      rw [hT2, otherColor_otherColor hg.turn, hB, ← hcol]
      exact colorCount_pos_of_lookup
        (p := ⟨true, source.IsKing || body.promoted, source.Color⟩)
        (lookup_movedBoard_dest _ _ _ _ _ _ _) rfl
    · rw [hst]
      exact checkWinner_checkWinner _
    · intro k hk
      rw [hB] at hk
      obtain ⟨c1, s1, rs, c2, d1, rd, hSe, hDe⟩ := captureMove_some_inv hcm
      rcases mem_keys_movedBoard hk with h1 | h1 | ⟨hc, h1⟩ | h1
      · rw [h1, hDe]; simp
      · rw [h1, hSe]; simp
      · obtain ⟨-, -, piece, hl3, -⟩ := hcap2 hc
        rw [h1]
        exact hg.keyLength _ (mem_keys_of_lookup hl3)
      · exact hg.keyLength _ h1
    · rw [hB]
      have hr := hcount "red"
      have hk := hcount "black"
      have := hg.bound
      constructor <;> omega

/-- Every request keeps the invariant. -/
theorem sound_handle {game : GameState} (hg : Sound game) (r : Request) :
    Sound (handle game r) := by
  cases r with
  | getGame => exact hg
  | postNew => exact sound_newGame
  | postMove source destination => exact sound_postMove hg source destination
  | getCheckWinner =>
    show Sound (checkWinner game)
    rw [hg.settled]
    exact hg

/-- Every state reached from a state with the invariant has it. -/
theorem sound_run (rs : List Request) :
    ∀ game : GameState, Sound game → Sound (run game rs) := by
  induction rs with
  | nil => intro game hg; exact hg
  | cons r rs ih => intro game hg; exact ih _ (sound_handle hg r)

/-- In a state with the invariant, status and winner are read off the two
colour counts, which are not both zero. -/
theorem sound_status {game : GameState} (hg : Sound game) :
    (colorCount game.Board "red" = 0 →
      game.Status = "won" ∧ game.Winner = "black" ∧ game.Turn = "red" ∧
        0 < colorCount game.Board "black") ∧
    (colorCount game.Board "black" = 0 →
      game.Status = "won" ∧ game.Winner = "red" ∧ game.Turn = "black" ∧
        0 < colorCount game.Board "red") ∧
    (colorCount game.Board "red" ≠ 0 → colorCount game.Board "black" ≠ 0 →
      game.Status = "ongoing" ∧ game.Winner = "") := by
  have hs := hg.settled
  have hm := hg.mover
  rw [checkWinner_eq] at hs
  have hob : otherColor "black" = "red" := by decide
  have hor : otherColor "red" = "black" := by decide
  refine ⟨?_, ?_, ?_⟩
  · intro h
    rw [if_pos h] at hs
    have ht : game.Turn = "red" := by
      rcases hg.turn with ht | ht
      · exact ht
      · rw [ht, hob, h] at hm
        exact absurd hm (by decide)
    rw [ht, hor] at hm
    rw [← hs]
    exact ⟨rfl, rfl, ht, hm⟩
  · intro h
    have ht : game.Turn = "black" := by
      rcases hg.turn with ht | ht
      · rw [ht, hor, h] at hm
        exact absurd hm (by decide)
      · exact ht
    rw [ht, hob] at hm
    rw [if_neg (by omega), if_pos h] at hs
    rw [← hs]
    exact ⟨rfl, rfl, ht, hm⟩
  · intro h1 h2
    rw [if_neg h1, if_neg h2] at hs
    rw [← hs]
    exact ⟨rfl, rfl⟩

/-- In a state with the invariant whose status is won, the colour to move has
no occupied piece. -/
theorem sound_won_no_mover {game : GameState} (hg : Sound game)
    (hw : game.Status = "won") : colorCount game.Board game.Turn = 0 := by
  obtain ⟨h1, h2, h3⟩ := sound_status hg
  by_cases hr : colorCount game.Board "red" = 0
  · rw [(h1 hr).2.2.1]; exact hr
  · by_cases hb : colorCount game.Board "black" = 0
    · rw [(h2 hb).2.2.1]; exact hb
    · rw [(h3 hr hb).1] at hw
      exact absurd hw (by decide)

/-- When the colour to move has no occupied piece every move is rejected at
the source check. -/
theorem postMove_rejected_of_no_mover {game : GameState}
    (h0 : colorCount game.Board game.Turn = 0) (S D : GoString) :
    postMove game S D = (MoveOutcome.rejected "Invalid source or not your turn", game) := by
  cases hS : game.Board.lookup S with
  | none => exact postMove_source_absent D hS
  | some source =>
    apply postMove_source_bad D hS
    by_contra hbad
    push_neg at hbad
    have ho : source.IsOccupied = true := by
      cases ho : source.IsOccupied with
      | true => rfl
      | false => exact absurd ho hbad.1
    have := colorCount_pos_of_lookup hS ho
    rw [hbad.2, h0] at this
    exact absurd this (by decide)

/-- In a won state with the invariant every request but a new game leaves the
state as it is. -/
theorem handle_won {game : GameState} (hg : Sound game) (hw : game.Status = "won")
    {r : Request} (hr : r ≠ Request.postNew) : handle game r = game := by
  cases r with
  | getGame => rfl
  | postNew => exact absurd rfl hr
  | postMove source destination =>
    show (postMove game source destination).2 = game
    rw [postMove_rejected_of_no_mover (sound_won_no_mover hg hw)]
  | getCheckWinner => exact hg.settled

theorem run_won (more : List Request) :
    ∀ game : GameState, Sound game → game.Status = "won" →
      (∀ r ∈ more, r ≠ Request.postNew) → run game more = game := by
  induction more with
  | nil => intro game _ _ _; rfl
  | cons r more ih =>
    intro game hg hw hall
    have h1 : handle game r = game := handle_won hg hw (hall r (List.mem_cons_self _ _))
    show run (handle game r) more = game
    rw [h1]
    exact ih game hg hw (fun x hx => hall x (List.mem_cons_of_mem _ hx))

/-! ## The status won is terminal -/

/-- C13. In every state reached from the fresh game by any sequence of
requests, when the status is won every move request is rejected (at the
source check, the colour to move has no piece left), `checkWinner` leaves the
state as it is, so does every sequence of requests without a new game, and
the status is ongoing again after a new game. -/
theorem won_is_terminal (rs : List Request) (h : (run newGame rs).Status = "won") :
    (∀ S D, postMove (run newGame rs) S D =
      (MoveOutcome.rejected "Invalid source or not your turn", run newGame rs)) ∧
    checkWinner (run newGame rs) = run newGame rs ∧
    (∀ more : List Request, (∀ r ∈ more, r ≠ Request.postNew) →
      run (run newGame rs) more = run newGame rs ∧
      (run (run newGame rs) more).Status = "won" ∧
      (run (run newGame rs) more).Winner = (run newGame rs).Winner) ∧
    (handle (run newGame rs) Request.postNew).Status = "ongoing" := by
  have hg : Sound (run newGame rs) := sound_run rs newGame sound_newGame
  refine ⟨?_, hg.settled, ?_, rfl⟩
  · intro S D
    exact postMove_rejected_of_no_mover (sound_won_no_mover hg h) S D
  · intro more hall
    have e := run_won more _ hg h hall
    rw [e]
    exact ⟨rfl, h, rfl⟩

set_option maxRecDepth 100000 in
/-- Witness of C13: after the game `winMoves`, in which red captures the
twelve black pieces, the status is won and every request but a new game
leaves the state as it is. -/
theorem won_is_terminal_witness :
    (run newGame (moveRequests winMoves)).Status = "won" ∧
    (∀ S D, postMove (run newGame (moveRequests winMoves)) S D =
      (MoveOutcome.rejected "Invalid source or not your turn",
        run newGame (moveRequests winMoves))) ∧
    checkWinner (run newGame (moveRequests winMoves)) =
      run newGame (moveRequests winMoves) ∧
    (∀ more : List Request, (∀ r ∈ more, r ≠ Request.postNew) →
      run (run newGame (moveRequests winMoves)) more =
        run newGame (moveRequests winMoves) ∧
      (run (run newGame (moveRequests winMoves)) more).Status = "won" ∧
      (run (run newGame (moveRequests winMoves)) more).Winner =
        (run newGame (moveRequests winMoves)).Winner) ∧
    (handle (run newGame (moveRequests winMoves)) Request.postNew).Status = "ongoing" :=
  ⟨by decide, won_is_terminal (moveRequests winMoves) (by decide)⟩

/-! ## The scenario A3→B4 -/

/-- Counterexample to C14: in the fresh game B4 holds a red piece, and the
move A3→B4 is not accepted: it is rejected with "Destination already
occupied" and the state stays the fresh game, with red to move. -/
theorem fresh_A3_B4_rejected :
    newGame.Board.lookup (lit "B4") = some ⟨true, false, "red"⟩ ∧
    postMove newGame (lit "A3") (lit "B4") =
      (MoveOutcome.rejected "Destination already occupied", newGame) ∧
    (¬ ∃ body, (postMove newGame (lit "A3") (lit "B4")).1 = MoveOutcome.accepted body) ∧
    (postMove newGame (lit "A3") (lit "B4")).2.Turn = "red" := by
  have hA : newGame.Board.lookup (lit "A3") = some (⟨true, false, "red"⟩ : PieceState) := by
    decide
  have hB : newGame.Board.lookup (lit "B4") = some (⟨true, false, "red"⟩ : PieceState) := by
    decide
  have hrej : postMove newGame (lit "A3") (lit "B4") =
      (MoveOutcome.rejected "Destination already occupied", newGame) :=
    postMove_dest_occupied hA rfl rfl hB rfl
  refine ⟨by decide, hrej, ?_, ?_⟩
  · rintro ⟨body, hb⟩
    rw [hrej] at hb
    cases hb
  · rw [hrej]
    rfl

/-- C14, amended. In every state where A3 holds an occupied red piece that is
not a king, red is to move and B4 is absent or unoccupied, the move A3→B4 is
accepted: afterwards A3 is unoccupied, B4 holds an occupied red piece that is
not a king, the turn is black, and `captured` and `promoted` are false. -/
theorem A3_B4_accepted_when_free (game : GameState)
    (hA3 : game.Board.lookup (lit "A3") = some ⟨true, false, "red"⟩)
    (hT : game.Turn = "red")
    (hB4 : ∀ d, game.Board.lookup (lit "B4") = some d → d.IsOccupied = false) :
    ∃ body, (postMove game (lit "A3") (lit "B4")).1 = MoveOutcome.accepted body ∧
      (∃ p, (postMove game (lit "A3") (lit "B4")).2.Board.lookup (lit "A3") = some p ∧
        p.IsOccupied = false) ∧
      (postMove game (lit "A3") (lit "B4")).2.Board.lookup (lit "B4") =
        some ⟨true, false, "red"⟩ ∧
      (postMove game (lit "A3") (lit "B4")).2.Turn = "black" ∧
      body.turn = "black" ∧ body.captured = false ∧ body.captured_pos = [] ∧
      body.promoted = false := by
  have hS : game.Board.lookup [65, 51] = some ⟨true, false, "red"⟩ := hA3
  have hD : ∀ d, game.Board.lookup [66, 52] = some d → d.IsOccupied = false := hB4
  obtain ⟨body, hb⟩ := postMove_accepts hS rfl hT.symm hD
  have hb2 : (postMove game (lit "A3") (lit "B4")).1 = MoveOutcome.accepted body := hb
  obtain ⟨source, hS2, -, -, -, hne, hcm, hp, hB, hTn, -⟩ := accepted_facts hb2
  obtain ⟨_, _, _, _, _, _, _, _, _, _, _, _, _, _, _, hbt, _⟩ := postMove_accepted_inv hb2
  rw [hA3] at hS2
  cases hS2
  have hmid : midPosOf 65 51 66 52 = lit "A3" := by decide
  have hcm2 : captureMove game (lit "A3") (lit "B4") = some (false, []) := by
    show captureMove game [65, 51] [66, 52] = some (false, [])
    rw [captureMove_cons, hmid, hA3]
    simp [hT]
  have hp2 : checkPromotion (lit "B4") "red" = some false := by decide
  rw [hcm2] at hcm
  simp only [Option.some.injEq, Prod.mk.injEq] at hcm
  rw [hp2] at hp
  simp only [Option.some.injEq] at hp
  have hTb : (postMove game (lit "A3") (lit "B4")).2.Turn = "black" := by
    rw [hTn, if_pos hT]
  refine ⟨body, hb2, ?_, ?_, hTb, ?_, hcm.1.symm, hcm.2.symm, hp.symm⟩
  · exact ⟨_, by rw [hB, lookup_movedBoard_source _ _ _ _ _ hne], rfl⟩
  · rw [hB, lookup_movedBoard_dest, ← hp]
    rfl
  · rw [hbt, hTb]

/-- Witness of the amended C14: the fresh game with B4 cleared. -/
theorem A3_B4_accepted_when_free_witness :
    clearedGame.Board.lookup (lit "A3") = some ⟨true, false, "red"⟩ ∧
    ∃ body, (postMove clearedGame (lit "A3") (lit "B4")).1 = MoveOutcome.accepted body ∧
      (∃ p, (postMove clearedGame (lit "A3") (lit "B4")).2.Board.lookup (lit "A3") =
        some p ∧ p.IsOccupied = false) ∧
      (postMove clearedGame (lit "A3") (lit "B4")).2.Board.lookup (lit "B4") =
        some ⟨true, false, "red"⟩ ∧
      (postMove clearedGame (lit "A3") (lit "B4")).2.Turn = "black" ∧
      body.turn = "black" ∧ body.captured = false ∧ body.captured_pos = [] ∧
      body.promoted = false :=
  ⟨by decide, A3_B4_accepted_when_free clearedGame (by decide) rfl (by decide)⟩

/-! ## Faults -/

/-- C15, the failing input. In the fresh game the request with source C3 and
an empty destination passes both checks and then faults in `captureMove`,
which reads the first byte of the destination; so does a destination of one
byte; the state is left as it was. -/
theorem move_faults_on_short_destination :
    run newGame [] = newGame ∧
    postMove newGame (lit "C3") (lit "") = (MoveOutcome.fault, newGame) ∧
    postMove newGame (lit "C3") (lit "D") = (MoveOutcome.fault, newGame) ∧
    captureMove newGame (lit "C3") (lit "") = none := by
  have hC : newGame.Board.lookup (lit "C3") = some (⟨true, false, "red"⟩ : PieceState) := by
    decide
  have hE : ∀ d, newGame.Board.lookup (lit "") = some d → d.IsOccupied = false := by
    decide
  have hF : ∀ d, newGame.Board.lookup (lit "D") = some d → d.IsOccupied = false := by
    decide
  refine ⟨rfl, ?_, ?_, rfl⟩
  · rw [postMove_past_checks hC rfl rfl hE]
    rfl
  · rw [postMove_past_checks hC rfl rfl hF]
    rfl

/-! ## Capture without a jump -/

/-- C16. Capture does not depend on the distance of the move: with red on A4
to move and black on A3, the move A4→B3, one column and one row away, is
accepted with `captured` true and `captured_pos` A3, the truncated midpoint,
which is neither the source nor the destination; A3 held an occupied black
piece before and is unoccupied afterwards. -/
theorem adjacent_move_captures :
    (postMove adjacentGame (lit "A4") (lit "B3")).1 = MoveOutcome.accepted adjacentBody ∧
    lit "A4" = [65, 48 + 4] ∧ lit "B3" = [65 + 1, 48 + 3] ∧
    adjacentBody.captured = true ∧ adjacentBody.captured_pos = lit "A3" ∧
    midPosOf 65 (48 + 4) 66 (48 + 3) = lit "A3" ∧
    lit "A3" ≠ lit "A4" ∧ lit "A3" ≠ lit "B3" ∧
    adjacentGame.Board.lookup (lit "A3") = some ⟨true, false, "black"⟩ ∧
    (postMove adjacentGame (lit "A4") (lit "B3")).2.Board.lookup (lit "A3") =
      some ⟨false, false, "black"⟩ ∧
    occupiedCount (postMove adjacentGame (lit "A4") (lit "B3")).2.Board + 1 =
      occupiedCount adjacentGame.Board := by
  refine ⟨rfl, ?_, ?_, rfl, rfl, ?_, ?_, ?_, ?_, ?_, ?_⟩ <;> decide

/-! ## Status and winner agree with the board -/

/-- C18. In every state reached from the fresh game by any sequence of
requests, `checkWinner` changes nothing: the status is won exactly when the
red count or the black count of occupied pieces is zero, the winner is then
the other colour, which still has a piece, and otherwise the status is
ongoing and the winner empty. -/
theorem status_agrees_with_board (rs : List Request) :
    checkWinner (run newGame rs) = run newGame rs ∧
    handle (run newGame rs) Request.getCheckWinner = run newGame rs ∧
    ((run newGame rs).Status = "won" ↔
      colorCount (run newGame rs).Board "red" = 0 ∨
        colorCount (run newGame rs).Board "black" = 0) ∧
    (colorCount (run newGame rs).Board "red" = 0 →
      (run newGame rs).Winner = "black" ∧ 0 < colorCount (run newGame rs).Board "black") ∧
    (colorCount (run newGame rs).Board "black" = 0 →
      (run newGame rs).Winner = "red" ∧ 0 < colorCount (run newGame rs).Board "red") ∧
    (colorCount (run newGame rs).Board "red" ≠ 0 →
      colorCount (run newGame rs).Board "black" ≠ 0 →
      (run newGame rs).Status = "ongoing" ∧ (run newGame rs).Winner = "") := by
  have hg : Sound (run newGame rs) := sound_run rs newGame sound_newGame
  obtain ⟨h1, h2, h3⟩ := sound_status hg
  refine ⟨hg.settled, hg.settled, ?_, ?_, ?_, h3⟩
  · constructor
    · intro hw
      by_contra hne
      push_neg at hne
      rw [(h3 hne.1 hne.2).1] at hw
      exact absurd hw (by decide)
    · rintro (h | h)
      · exact (h1 h).1
      · exact (h2 h).1
  · intro h
    exact ⟨(h1 h).2.1, (h1 h).2.2.2⟩
  · intro h
    exact ⟨(h2 h).2.1, (h2 h).2.2.2⟩

/-! ## The counts of the two colours -/

/-- C19. In every state reached from the fresh game by any sequence of
requests the turn is red or black, every occupied piece is red or black and no
colour has more than twelve occupied pieces; an accepted move leaves the count
of the colour to move as it was and lowers the count of the other colour by
one when `captured` is true and by nothing otherwise, the captured piece being
of the other colour. -/
theorem colour_counts_by_move (rs : List Request) (S D : GoString) (body : MoveBody) :
    ((run newGame rs).Turn = "red" ∨ (run newGame rs).Turn = "black") ∧
    (∀ k p, (run newGame rs).Board.lookup k = some p → p.IsOccupied = true →
      p.Color = "red" ∨ p.Color = "black") ∧
    colorCount (run newGame rs).Board "red" ≤ 12 ∧
    colorCount (run newGame rs).Board "black" ≤ 12 ∧
    ((postMove (run newGame rs) S D).1 = MoveOutcome.accepted body →
      colorCount (postMove (run newGame rs) S D).2.Board (run newGame rs).Turn =
        colorCount (run newGame rs).Board (run newGame rs).Turn ∧
      colorCount (postMove (run newGame rs) S D).2.Board
          (otherColor (run newGame rs).Turn) + (if body.captured = true then 1 else 0) =
        colorCount (run newGame rs).Board (otherColor (run newGame rs).Turn) ∧
      (body.captured = true →
        ∃ piece, (run newGame rs).Board.lookup body.captured_pos = some piece ∧
          piece.IsOccupied = true ∧ piece.Color = otherColor (run newGame rs).Turn)) := by
  have hg : Sound (run newGame rs) := sound_run rs newGame sound_newGame
  refine ⟨hg.turn, fun k p hl _ => hg.colors k p hl, hg.bound.1, hg.bound.2, ?_⟩
  intro hb
  obtain ⟨source, hS, hocc, hcol, hD, hne, -, -, hB, -, hcap⟩ := accepted_facts hb
  have hcap2 : body.captured = true → body.captured_pos ≠ S ∧ body.captured_pos ≠ D ∧
      ∃ piece, (run newGame rs).Board.lookup body.captured_pos = some piece ∧
        piece.IsOccupied = true := by
    intro hc
    obtain ⟨h1, h2, piece, hl, ho, -⟩ := hcap hc
    exact ⟨h1, h2, piece, hl, ho⟩
  have hcount := fun color => colorCount_movedBoard (run newGame rs).Board body.captured
    body.captured_pos body.promoted color hS hocc hD hne hcap2
  have hother : ∀ piece : PieceState, (piece.Color = "red" ∨ piece.Color = "black") →
      piece.Color ≠ (run newGame rs).Turn →
      piece.Color = otherColor (run newGame rs).Turn := by
    intro piece hpc hpn
    rcases hg.turn with ht | ht <;> rcases hpc with hp | hp <;> rw [ht] at hpn ⊢ <;>
      rw [hp] at hpn ⊢ <;> first | exact absurd rfl hpn | decide
  rw [hB]
  refine ⟨?_, ?_, ?_⟩
  · have h := hcount (run newGame rs).Turn
    cases hc : body.captured with
    | false =>
      rw [hc] at h
      simpa using h
    | true =>
      obtain ⟨-, -, piece, hl, -, hcl⟩ := hcap hc
      rw [hc, index_fst_of_lookup hl] at h
      simpa [hcl] using h
  · have h := hcount (otherColor (run newGame rs).Turn)
    cases hc : body.captured with
    | false =>
      rw [hc] at h
      simpa using h
    | true =>
      obtain ⟨-, -, piece, hl, -, hcl⟩ := hcap hc
      have hpo := hother piece (hg.colors _ piece hl) hcl
      rw [hc, index_fst_of_lookup hl] at h
      simpa [hpo] using h
  · intro hc
    obtain ⟨-, -, piece, hl, ho, hcl⟩ := hcap hc
    exact ⟨piece, hl, ho, hother piece (hg.colors _ piece hl) hcl⟩

/-- An instance of C19: after red C7→C8 and black G3→A6 in the fresh game the
move A5→B7 captures the black piece on A6; red keeps twelve pieces and black
goes from twelve to eleven. -/
theorem colour_counts_by_move_witness :
    (postMove thirdGame (lit "A5") (lit "B7")).1 = MoveOutcome.accepted thirdBody ∧
    colorCount thirdGame.Board "red" = 12 ∧ colorCount thirdGame.Board "black" = 12 ∧
    colorCount (postMove thirdGame (lit "A5") (lit "B7")).2.Board "red" = 12 ∧
    colorCount (postMove thirdGame (lit "A5") (lit "B7")).2.Board "black" + 1 = 12 :=
  have h : (postMove thirdGame (lit "A5") (lit "B7")).1 = MoveOutcome.accepted thirdBody :=
    rfl
  have hc := (colour_counts_by_move (moveRequests (winMoves.take 2)) (lit "A5") (lit "B7")
    thirdBody).2.2.2.2 h
  ⟨h, by decide, by decide, hc.1.trans (by decide), hc.2.1.trans (by decide)⟩

/-! ## Labels of at least two bytes -/

theorem exists_two_of_length {l : GoString} (h : 2 ≤ l.length) :
    ∃ a b t, l = a :: b :: t := by
  match l, h with
  | a :: b :: t, _ => exact ⟨a, b, t, rfl⟩

/-- C20. In every state reached from the fresh game by any sequence of
requests every key of the board has at least two bytes; so for a move request
that passes both checks (the source holds an occupied piece of the colour to
move, the destination is absent or unoccupied) with a destination of at least
two bytes, the source has at least two bytes, `captureMove` and
`checkPromotion` return without an index fault and the move is accepted. -/
theorem keys_two_bytes_no_fault (rs : List Request) (S D : GoString) (source : PieceState)
    (hS : (run newGame rs).Board.lookup S = some source)
    (hocc : source.IsOccupied = true) (hcol : source.Color = (run newGame rs).Turn)
    (hD : ∀ d, (run newGame rs).Board.lookup D = some d → d.IsOccupied = false)
    (hlen : 2 ≤ D.length) :
    (∀ k, k ∈ (run newGame rs).Board.keys → 2 ≤ k.length) ∧
    2 ≤ S.length ∧
    (captureMove (run newGame rs) S D).isSome = true ∧
    (checkPromotion D source.Color).isSome = true ∧
    (postMove (run newGame rs) S D).1 ≠ MoveOutcome.fault ∧
    ∃ body, (postMove (run newGame rs) S D).1 = MoveOutcome.accepted body := by
  have hg : Sound (run newGame rs) := sound_run rs newGame sound_newGame
  have hSl : 2 ≤ S.length := hg.keyLength S (mem_keys_of_lookup hS)
  obtain ⟨c1, s1, ts, rfl⟩ := exists_two_of_length hSl
  obtain ⟨c2, d1, td, rfl⟩ := exists_two_of_length hlen
  obtain ⟨body, hb⟩ := postMove_accepts hS hocc hcol hD
  obtain ⟨src, -, -, -, -, -, hcm, -⟩ := accepted_facts hb
  refine ⟨hg.keyLength, hSl, ?_, ?_, ?_, body, hb⟩
  · rw [hcm]
    rfl
  · rw [checkPromotion_cons]
    rfl
  · rw [hb]
    exact fun e => MoveOutcome.noConfusion e

/-- Witness of C20: the move C3→D4 in the fresh game. -/
theorem keys_two_bytes_no_fault_witness :
    (run newGame []).Board.lookup (lit "C3") = some ⟨true, false, "red"⟩ ∧
    (∀ k, k ∈ (run newGame []).Board.keys → 2 ≤ k.length) ∧
    2 ≤ (lit "C3").length ∧
    (captureMove (run newGame []) (lit "C3") (lit "D4")).isSome = true ∧
    (checkPromotion (lit "D4") "red").isSome = true ∧
    (postMove (run newGame []) (lit "C3") (lit "D4")).1 ≠ MoveOutcome.fault ∧
    ∃ body, (postMove (run newGame []) (lit "C3") (lit "D4")).1 =
      MoveOutcome.accepted body :=
  ⟨by decide, keys_two_bytes_no_fault [] (lit "C3") (lit "D4") ⟨true, false, "red"⟩
    (by decide) rfl rfl (by decide) (by decide)⟩

/-! ## Well-formed labels -/

theorem wellFormed_iff (s : GoString) :
    wellFormed s = true ↔ ∃ c d, s = [c, d] ∧ 65 ≤ c ∧ c ≤ 72 ∧ 49 ≤ d ∧ d ≤ 56 := by
  constructor
  · intro h
    match s, h with
    | [c, d], h =>
      simp only [wellFormed, decide_eq_true_eq] at h
      exact ⟨c, d, rfl, h⟩
  · rintro ⟨c, d, rfl, h⟩
    simp only [wellFormed, decide_eq_true_eq]
    exact h

theorem mem_allLabels_of_wellFormed {s : GoString} (h : wellFormed s = true) :
    s ∈ allLabels := by
  obtain ⟨c, d, rfl, h1, h2, h3, h4⟩ := (wellFormed_iff s).mp h
  unfold allLabels
  rw [List.mem_flatMap]
  refine ⟨c - 65, List.mem_range.mpr (by omega), ?_⟩
  rw [List.mem_map]
  refine ⟨d - 49, List.mem_range.mpr (by omega), ?_⟩
  have e1 : 65 + (c - 65) = c := by omega
  have e2 : 49 + (d - 49) = d := by omega
  rw [e1, e2]

/-- The midpoint label of two well-formed labels is well-formed. -/
theorem wellFormed_midPosOf {c1 s1 c2 d1 : Nat} (h1 : wellFormed [c1, s1] = true)
    (h2 : wellFormed [c2, d1] = true) : wellFormed (midPosOf c1 s1 c2 d1) = true := by
  simp only [wellFormed, decide_eq_true_eq] at h1 h2
  obtain ⟨r1, rfl⟩ : ∃ r1, s1 = 48 + r1 := ⟨s1 - 48, by omega⟩
  obtain ⟨r2, rfl⟩ : ∃ r2, d1 = 48 + r2 := ⟨d1 - 48, by omega⟩
  rw [midPosOf_digits c1 c2 r1 r2 (by omega) (by omega), Nat.mod_eq_of_lt (by omega)]
  simp only [wellFormed, decide_eq_true_eq]
  omega

/-- A move between well-formed labels keeps every key of the board
well-formed. -/
theorem wellFormed_keys_postMove {game : GameState}
    (hg : ∀ k, k ∈ game.Board.keys → wellFormed k = true) {S D : GoString}
    (hD : wellFormed D = true) :
    ∀ k, k ∈ (postMove game S D).2.Board.keys → wellFormed k = true := by
  rcases postMove_cases game S D with ⟨msg, hm⟩ | hf | ⟨body, hb⟩
  · rw [hm]; exact hg
  · rw [hf]; exact hg
  · obtain ⟨source, hS, -, -, -, -, -, -, hB, -, hcap⟩ := accepted_facts hb
    intro k hk
    rw [hB] at hk
    rcases mem_keys_movedBoard hk with h1 | h1 | ⟨hc, h1⟩ | h1
    · rw [h1]; exact hD
    · rw [h1]; exact hg S (mem_keys_of_lookup hS)
    · obtain ⟨-, -, piece, hl, -⟩ := hcap hc
      rw [h1]
      exact hg _ (mem_keys_of_lookup hl)
    · exact hg k h1

theorem wellFormed_keys_run (ms : List (GoString × GoString)) :
    ∀ game : GameState, (∀ k, k ∈ game.Board.keys → wellFormed k = true) →
      (∀ m ∈ ms, wellFormed m.1 = true ∧ wellFormed m.2 = true) →
      ∀ k, k ∈ (run game (moveRequests ms)).Board.keys → wellFormed k = true := by
  induction ms with
  | nil => intro game hg _; exact hg
  | cons m ms ih =>
    intro game hg hall
    have hm := hall m (List.mem_cons_self _ _)
    exact ih (postMove game m.1 m.2).2 (wellFormed_keys_postMove hg hm.2)
      (fun x hx => hall x (List.mem_cons_of_mem _ hx))

/-- C17. When the fresh game is followed only by move requests whose source
and destination are well-formed labels (one letter A–H and one digit 1–8),
every key of the board reached is a well-formed label, the board has at most
64 keys, and the midpoint label that `captureMove` builds for each of the
moves is a well-formed label. -/
theorem wellFormed_labels_preserved (ms : List (GoString × GoString))
    (h : ∀ m ∈ ms, wellFormed m.1 = true ∧ wellFormed m.2 = true) :
    (∀ k, k ∈ (run newGame (moveRequests ms)).Board.keys → wellFormed k = true) ∧
    (run newGame (moveRequests ms)).Board.keys.length ≤ 64 ∧
    (∀ m ∈ ms, ∀ c1 s1 c2 d1, m.1 = [c1, s1] → m.2 = [c2, d1] →
      wellFormed (midPosOf c1 s1 c2 d1) = true) ∧
    (∀ m ∈ ms, ∃ c1 s1 c2 d1, m.1 = [c1, s1] ∧ m.2 = [c2, d1]) := by
  have h0 : ∀ k, k ∈ newGame.Board.keys → wellFormed k = true := by decide
  have hk := wellFormed_keys_run ms newGame h0 h
  refine ⟨hk, ?_, ?_, ?_⟩
  · have hsub : (run newGame (moveRequests ms)).Board.keys ⊆ allLabels :=
      fun k hkm => mem_allLabels_of_wellFormed (hk k hkm)
    have hlen := (List.subperm_of_subset
      (AList.keys_nodup (run newGame (moveRequests ms)).Board) hsub).length_le
    have h64 : allLabels.length = 64 := by decide
    omega
  · intro m hm c1 s1 c2 d1 e1 e2
    have hw := h m hm
    rw [e1, e2] at hw
    exact wellFormed_midPosOf hw.1 hw.2
  · intro m hm
    obtain ⟨c1, s1, e1, -⟩ := (wellFormed_iff m.1).mp (h m hm).1
    obtain ⟨c2, d1, e2, -⟩ := (wellFormed_iff m.2).mp (h m hm).2
    exact ⟨c1, s1, c2, d1, e1, e2⟩

set_option maxRecDepth 100000 in
/-- Witness of C17: the 25 moves of `winMoves`, all between well-formed
labels; the board they reach has 41 keys. -/
theorem wellFormed_labels_preserved_witness :
    (∀ m ∈ winMoves, wellFormed m.1 = true ∧ wellFormed m.2 = true) ∧
    (run newGame (moveRequests winMoves)).Board.keys.length = 41 ∧
    (∀ k, k ∈ (run newGame (moveRequests winMoves)).Board.keys → wellFormed k = true) ∧
    (run newGame (moveRequests winMoves)).Board.keys.length ≤ 64 :=
  ⟨by decide, by decide,
    (wellFormed_labels_preserved winMoves (by decide)).1,
    (wellFormed_labels_preserved winMoves (by decide)).2.1⟩

end Checkers
